import Mathlib

/-!
# Epsilon-NFA to epsilon-free NFA conversion (`epsilon_nfa_converter.c`)

A shallow embedding of the conversion pipeline of `epsilon_nfa_converter.c`
(`compute_epsilon_closure`, `eliminate_epsilon_transitions`,
`update_final_states`) together with the properties stated for it.

Embedding conventions.

* The `int` tables of the C program are total functions from indices to `Int`;
  a cell is *set* when it is non-zero, which is how every `if` of the source
  reads it.  The C arrays have `MAX_STATES` rows and columns and
  `MAX_ALPHABET_SIZE` symbol columns, so the embedding describes the program
  for `num_states ≤ MAX_STATES` and `num_symbols ≤ MAX_ALPHABET_SIZE`
  (`FitsTables`), which the theorems about the program assume.
* The scalars `num_states`, `num_symbols` and `initial_state` are `Int`, as in
  the source; a loop `for (int i = 0; i < num_states; i++)` is a left fold over
  `List.range num_states.toNat`, so a non-positive bound runs no iteration.
  "State `i` is below `num_states`" is written `i < g.num_states.toNat`.
* The `do { ... } while (has_changes)` loop is `doWhile`, which takes a bound on
  the number of passes and returns `none` when the bound is exhausted; the
  theorems show that `num_states * num_states + 1` passes always suffice.
* Each function writes one global table; its loop state is that table
  (plus the local `has_changes` for the closure), every other global is
  read from the entry state.
* The three functions are given a second time on the whole state and with
  every array access checked against the declared array sizes
  (`compute_epsilon_closure_checked`, `eliminate_epsilon_transitions_checked`,
  `update_final_states_checked`); `compute_epsilon_closure_checked_eq`,
  `eliminate_epsilon_transitions_checked_eq` and `update_final_states_checked_eq`
  show that on an automaton that fits the tables they return exactly what the
  table-level functions compute.
* The functions `read_automaton_input` and `display_result` take the values
  read by `scanf` as an `AutomatonInput` and return the printed lines as a
  `Printed` value.
-/

namespace EpsilonNFA

/-! ## The program -/

/-- Constant `MAX_STATES` of the source: the number of rows and columns of the tables. -/
def MAX_STATES : Nat := 10

/-- Constant `MAX_ALPHABET_SIZE` of the source: the number of symbol columns. -/
def MAX_ALPHABET_SIZE : Nat := 5

/-- A two-dimensional `int` table such as `epsilon_closure[MAX_STATES][MAX_STATES]`. -/
abbrev Table2 := Nat → Nat → Int

/-- A three-dimensional `int` table such as
`symbol_transitions[MAX_STATES][MAX_ALPHABET_SIZE][MAX_STATES]`. -/
abbrev Table3 := Nat → Nat → Nat → Int

/-- The assignment `t[i] = v`. -/
def set1 (t : Nat → Int) (i : Nat) (v : Int) : Nat → Int :=
  fun x => if x = i then v else t x

/-- The assignment `t[i][k] = v`. -/
def set2 (t : Table2) (i k : Nat) (v : Int) : Table2 :=
  fun x y => if x = i ∧ y = k then v else t x y

/-- The assignment `t[i][a][k] = v`. -/
def set3 (t : Table3) (i a k : Nat) (v : Int) : Table3 :=
  fun x b y => if x = i ∧ b = a ∧ y = k then v else t x b y

/-- The global variables of the program. -/
structure Globals where
  num_states : Int
  num_symbols : Int
  alphabet : Nat → Char
  initial_state : Int
  final_states : Nat → Int
  symbol_transitions : Table3
  epsilon_transitions : Table2
  epsilon_closure : Table2
  converted_transitions : Table3

/-- The loop `do body while (cond)`, run for at most `fuel` passes. -/
def doWhile {σ : Type} (body : σ → σ) (cond : σ → Bool) : Nat → σ → Option σ
  | 0, _ => none
  | fuel + 1, s => if cond (body s) then doWhile body cond fuel (body s) else some (body s)

/-- Function `initialize_data_structures`: every table cell becomes `0`. -/
def initialize_data_structures (g : Globals) : Globals :=
  (List.range MAX_STATES).foldl (fun g i =>
    let g := { g with final_states := set1 g.final_states i 0 }
    let g := (List.range MAX_ALPHABET_SIZE).foldl (fun g j =>
      (List.range MAX_STATES).foldl (fun g k =>
        let g := { g with symbol_transitions := set3 g.symbol_transitions i j k 0 }
        { g with converted_transitions := set3 g.converted_transitions i j k 0 }) g) g
    (List.range MAX_STATES).foldl (fun g j =>
      let g := { g with epsilon_transitions := set2 g.epsilon_transitions i j 0 }
      { g with epsilon_closure := set2 g.epsilon_closure i j 0 }) g) g

/-- Function `compute_epsilon_closure`.  The loop state of the fixed-point
iteration is the pair `(epsilon_closure, has_changes)`; `fuel` bounds the
number of passes of the `do ... while (has_changes)` loop.  The local
`has_changes` is uninitialised on entry and every pass starts by assigning it `0`,
so the value paired with the table before the first pass is immaterial. -/
def compute_epsilon_closure (fuel : Nat) (g : Globals) : Option Globals :=
  let n := g.num_states.toNat
  -- for (i) epsilon_closure[i][i] = 1;
  let init : Table2 := (List.range n).foldl (fun cl i => set2 cl i i 1) g.epsilon_closure
  (doWhile
    (fun (s : Table2 × Int) =>
      -- has_changes = 0; for (i) for (j) if (closure[i][j]) for (k) ...
      (List.range n).foldl (fun s i =>
        (List.range n).foldl (fun s j =>
          if s.1 i j ≠ 0 then
            (List.range n).foldl (fun s k =>
              if g.epsilon_transitions j k ≠ 0 ∧ s.1 i k = 0 then (set2 s.1 i k 1, 1) else s) s
          else s) s) (s.1, 0))
    (fun s => decide (s.2 ≠ 0)) fuel (init, 0)).map
  (fun s => { g with epsilon_closure := s.1 })

/-- Function `eliminate_epsilon_transitions`. -/
def eliminate_epsilon_transitions (g : Globals) : Globals :=
  let n := g.num_states.toNat
  let m := g.num_symbols.toNat
  { g with converted_transitions :=
      (List.range n).foldl (fun conv source =>
        (List.range n).foldl (fun conv closure_state =>
          if g.epsilon_closure source closure_state ≠ 0 then
            (List.range m).foldl (fun conv symbol_idx =>
              (List.range n).foldl (fun conv intermediate =>
                if g.symbol_transitions closure_state symbol_idx intermediate ≠ 0 then
                  (List.range n).foldl (fun conv destination =>
                    if g.epsilon_closure intermediate destination ≠ 0 then
                      set3 conv source symbol_idx destination 1
                    else conv) conv
                else conv) conv) conv
          else conv) conv) g.converted_transitions }

/-- Function `update_final_states`.  The table `final_states` is updated in
place: the test `final_states[j]` reads the current table. -/
def update_final_states (g : Globals) : Globals :=
  let n := g.num_states.toNat
  { g with final_states :=
      (List.range n).foldl (fun fin i =>
        (List.range n).foldl (fun fin j =>
          if g.epsilon_closure i j ≠ 0 ∧ fin j ≠ 0 then set1 fin i 1 else fin) fin) g.final_states }

/-- The three conversion calls of `main`, in order:
`compute_epsilon_closure(); eliminate_epsilon_transitions(); update_final_states();`. -/
def convert (fuel : Nat) (g : Globals) : Option Globals :=
  (compute_epsilon_closure fuel g).map (fun g => update_final_states (eliminate_epsilon_transitions g))

/-! ## The program on the whole state, with checked array accesses

The same three functions once more, written on the whole state `Globals` and with every
array access checked against the declared array sizes: `none` stands for an access
outside an array (undefined behaviour in C).  Loop bounds and table cells are read from
the current state. -/

/-- Checked read `t[i]` of an array with `MAX_STATES` cells. -/
def read1 (t : Nat → Int) (i : Nat) : Option Int :=
  if i < MAX_STATES then some (t i) else none

/-- Checked assignment `t[i] = v` to an array with `MAX_STATES` cells. -/
def write1 (t : Nat → Int) (i : Nat) (v : Int) : Option (Nat → Int) :=
  if i < MAX_STATES then some (set1 t i v) else none

/-- Checked read `t[i][k]` of a `[MAX_STATES][MAX_STATES]` array. -/
def read2 (t : Table2) (i k : Nat) : Option Int :=
  if i < MAX_STATES ∧ k < MAX_STATES then some (t i k) else none

/-- Checked assignment `t[i][k] = v` to a `[MAX_STATES][MAX_STATES]` array. -/
def write2 (t : Table2) (i k : Nat) (v : Int) : Option Table2 :=
  if i < MAX_STATES ∧ k < MAX_STATES then some (set2 t i k v) else none

/-- Checked read `t[i][a][k]` of a `[MAX_STATES][MAX_ALPHABET_SIZE][MAX_STATES]` array. -/
def read3 (t : Table3) (i a k : Nat) : Option Int :=
  if i < MAX_STATES ∧ a < MAX_ALPHABET_SIZE ∧ k < MAX_STATES then some (t i a k) else none

/-- Checked assignment `t[i][a][k] = v` to a
`[MAX_STATES][MAX_ALPHABET_SIZE][MAX_STATES]` array. -/
def write3 (t : Table3) (i a k : Nat) (v : Int) : Option Table3 :=
  if i < MAX_STATES ∧ a < MAX_ALPHABET_SIZE ∧ k < MAX_STATES then some (set3 t i a k v)
  else none

/-- One pass of the fixed-point loop of `compute_epsilon_closure` on the whole state:
`has_changes = 0` followed by the loop nest.  The test
`epsilon_transitions[j][k] && !epsilon_closure[i][k]` reads its second cell only when the
first is set. -/
def closure_pass_checked (s : Globals × Int) : Option (Globals × Int) :=
  (List.range s.1.num_states.toNat).foldlM (fun s i =>
    (List.range s.1.num_states.toNat).foldlM (fun s j =>
      (read2 s.1.epsilon_closure i j).bind (fun c =>
        if c ≠ 0 then
          (List.range s.1.num_states.toNat).foldlM (fun s k =>
            (read2 s.1.epsilon_transitions j k).bind (fun e =>
              if e ≠ 0 then
                (read2 s.1.epsilon_closure i k).bind (fun c =>
                  if c = 0 then
                    (write2 s.1.epsilon_closure i k 1).map
                      (fun t => ({ s.1 with epsilon_closure := t }, 1))
                  else some s)
              else some s)) s
        else some s)) s) (s.1, 0)

/-- Function `compute_epsilon_closure` on the whole state with checked accesses.  The
result is `none` when the bound `fuel` on the passes is exhausted, `some none` when an
access falls outside an array, and `some (some r)` when the function returns state `r`. -/
def compute_epsilon_closure_checked (fuel : Nat) (g : Globals) : Option (Option Globals) :=
  (doWhile (fun (s : Option (Globals × Int)) => s.bind closure_pass_checked)
    (fun s => match s with
      | none => false
      | some s => decide (s.2 ≠ 0))
    fuel
    (((List.range g.num_states.toNat).foldlM (fun g i =>
        (write2 g.epsilon_closure i i 1).map (fun t => { g with epsilon_closure := t })) g).map
      (fun g => (g, 0)))).map
  (fun s => s.map (fun s => s.1))

/-- Function `eliminate_epsilon_transitions` on the whole state with checked accesses. -/
def eliminate_epsilon_transitions_checked (g : Globals) : Option Globals :=
  (List.range g.num_states.toNat).foldlM (fun g source =>
    (List.range g.num_states.toNat).foldlM (fun g closure_state =>
      (read2 g.epsilon_closure source closure_state).bind (fun c =>
        if c ≠ 0 then
          (List.range g.num_symbols.toNat).foldlM (fun g symbol_idx =>
            (List.range g.num_states.toNat).foldlM (fun g intermediate =>
              (read3 g.symbol_transitions closure_state symbol_idx intermediate).bind (fun t =>
                if t ≠ 0 then
                  (List.range g.num_states.toNat).foldlM (fun g destination =>
                    (read2 g.epsilon_closure intermediate destination).bind (fun c =>
                      if c ≠ 0 then
                        (write3 g.converted_transitions source symbol_idx destination 1).map
                          (fun t => { g with converted_transitions := t })
                      else some g)) g
                else some g)) g) g
        else some g)) g) g

/-- Function `update_final_states` on the whole state with checked accesses.  The test
`epsilon_closure[i][j] && final_states[j]` reads its second cell only when the first is
set. -/
def update_final_states_checked (g : Globals) : Option Globals :=
  (List.range g.num_states.toNat).foldlM (fun g i =>
    (List.range g.num_states.toNat).foldlM (fun g j =>
      (read2 g.epsilon_closure i j).bind (fun c =>
        if c ≠ 0 then
          (read1 g.final_states j).bind (fun f =>
            if f ≠ 0 then
              (write1 g.final_states i 1).map (fun t => { g with final_states := t })
            else some g)
        else some g)) g) g

/-- The three conversion calls of `main` on the whole state with checked accesses. -/
def convert_checked (fuel : Nat) (g : Globals) : Option (Option Globals) :=
  (compute_epsilon_closure_checked fuel g).map (fun r =>
    (r.bind eliminate_epsilon_transitions_checked).bind update_final_states_checked)

/-! ## Output of the program -/

/-- One line `from --symbol--> to` printed by `display_result`, together with the
loop index `symbol_idx` of the symbol whose character `alphabet[symbol_idx]` is printed. -/
structure PrintedTransition where
  from_state : Nat
  symbol_idx : Nat
  symbol : Char
  to_state : Nat
deriving DecidableEq

/-- What `display_result` prints: the start state, the final states and the transition
lines, each list in the order of printing. -/
structure Printed where
  start_state : Int
  final_states : List Nat
  transitions : List PrintedTransition
deriving DecidableEq

/-- Function `display_result`: every `printf` appends to the output. -/
def display_result (g : Globals) : Printed :=
  let n := g.num_states.toNat
  let m := g.num_symbols.toNat
  { start_state := g.initial_state
    final_states :=
      ((List.range n).foldl (fun out i =>
        if g.final_states i ≠ 0 then out ++ [i] else out) [])
    transitions :=
      ((List.range n).foldl (fun out i =>
        (List.range m).foldl (fun out j =>
          (List.range n).foldl (fun out k =>
            if g.converted_transitions i j k ≠ 0 then
              out ++ [{ from_state := i, symbol_idx := j, symbol := g.alphabet j, to_state := k }]
            else out) out) out) []) }

/-- The index triple `(fromState, symbolIndex, toState)` of a printed transition. -/
def PrintedTransition.triple (t : PrintedTransition) : Nat × Nat × Nat :=
  (t.from_state, t.symbol_idx, t.to_state)

/-- The states of `closure(i)` in ascending order: the columns below `num_states` that
are set in row `i` of `epsilon_closure`. -/
def closureSet (g : Globals) (i : Nat) : List Nat :=
  (List.range g.num_states.toNat).filter (fun k => decide (g.epsilon_closure i k ≠ 0))

/-! ## Reading the automaton and the whole program -/

/-- The values that `read_automaton_input` obtains from `scanf`, in reading order: the two
counts, the alphabet characters by position, the initial state, the final states, and the
symbol and epsilon transitions entered before the terminating `-1`. -/
structure AutomatonInput where
  num_states : Int
  num_symbols : Int
  alphabet : Nat → Char
  initial_state : Int
  final_states : List Int
  symbol_transitions : List (Int × Char × Int)
  epsilon_transitions : List (Int × Int)

/-- An `int` used as an index into an array with `size` cells: `none` when it is negative
or not below `size`. -/
def checkedIndex (z : Int) (size : Nat) : Option Nat :=
  if 0 ≤ z ∧ z < size then some z.toNat else none

/-- Function `read_automaton_input`, with checked array accesses (`none` stands for an
access outside an array).  The function contains no test of the values it reads other
than the comparison of a transition symbol with the alphabet; it has no error exit. -/
def read_automaton_input (inp : AutomatonInput) (g : Globals) : Option Globals :=
  let g := { g with num_states := inp.num_states, num_symbols := inp.num_symbols }
  -- for (i < num_symbols) scanf(" %c", &alphabet[i]);
  ((List.range g.num_symbols.toNat).foldlM (fun g i =>
      if i < MAX_ALPHABET_SIZE then
        some { g with alphabet := fun x => if x = i then inp.alphabet i else g.alphabet x }
      else none) g).bind (fun g =>
  let g := { g with initial_state := inp.initial_state }
  -- final_states[temp_state] = 1;
  (inp.final_states.foldlM (fun g temp_state =>
      (checkedIndex temp_state MAX_STATES).bind (fun i =>
        (write1 g.final_states i 1).map (fun t => { g with final_states := t }))) g).bind
  (fun g =>
  -- for (i < num_symbols) if (alphabet[i] == symbol) symbol_transitions[from][i][to] = 1;
  (inp.symbol_transitions.foldlM (fun g tr =>
      (List.range g.num_symbols.toNat).foldlM (fun g i =>
        if i < MAX_ALPHABET_SIZE then
          if g.alphabet i = tr.2.1 then
            (checkedIndex tr.1 MAX_STATES).bind (fun p =>
              (checkedIndex tr.2.2 MAX_STATES).bind (fun q =>
                (write3 g.symbol_transitions p i q 1).map
                  (fun t => { g with symbol_transitions := t })))
          else some g
        else none) g) g).bind
  (fun g =>
  -- epsilon_transitions[from_state][to_state] = 1;
  inp.epsilon_transitions.foldlM (fun g tr =>
      (checkedIndex tr.1 MAX_STATES).bind (fun p =>
        (checkedIndex tr.2 MAX_STATES).bind (fun q =>
          (write2 g.epsilon_transitions p q 1).map
            (fun t => { g with epsilon_transitions := t })))) g)))

/-- Function `main`: the six calls in order.  The result is `none` when the bound `fuel`
on the passes of the closure loop is exhausted, `some none` when an access falls outside
an array, and `some (some out)` when the program prints `out`.  There is no other
outcome. -/
def main_checked (fuel : Nat) (inp : AutomatonInput) (g0 : Globals) : Option (Option Printed) :=
  match read_automaton_input inp (initialize_data_structures g0) with
  | none => some none
  | some g => (convert_checked fuel g).map (fun r => r.map display_result)

/-- The input addresses cells inside the arrays: the counts do not exceed the array
sizes and every state index read is in `[0, MAX_STATES)`.  Nothing is required about the
declared range `[0, num_states)`, the sign of the counts, or the symbols. -/
def InsideArrays (inp : AutomatonInput) : Prop :=
  inp.num_states ≤ MAX_STATES ∧ inp.num_symbols ≤ MAX_ALPHABET_SIZE ∧
  (∀ f, f ∈ inp.final_states → 0 ≤ f ∧ f < MAX_STATES) ∧
  (∀ t, t ∈ inp.symbol_transitions → (0 ≤ t.1 ∧ t.1 < MAX_STATES) ∧
    (0 ≤ t.2.2 ∧ t.2.2 < MAX_STATES)) ∧
  (∀ t, t ∈ inp.epsilon_transitions → (0 ≤ t.1 ∧ t.1 < MAX_STATES) ∧
    (0 ≤ t.2 ∧ t.2 < MAX_STATES))

/-! ## Specification-side notions -/

/-- One epsilon transition between two states of the automaton
(`epsilon_transitions[p][q]` set, both states below `num_states`). -/
def EpsStep (g : Globals) (p q : Nat) : Prop :=
  p < g.num_states.toNat ∧ q < g.num_states.toNat ∧ g.epsilon_transitions p q ≠ 0

/-- Epsilon-reachability: a path of zero or more epsilon transitions through
states below `num_states`. -/
def EpsReach (g : Globals) : Nat → Nat → Prop :=
  Relation.ReflTransGen (EpsStep g)

/-- The rewrite rule: `source` reaches `via` in its closure, `via` steps on `sym` to
`mid`, and `dest` is in the closure of `mid`. -/
def Rewritten (g : Globals) (source sym dest : Nat) : Prop :=
  source < g.num_states.toNat ∧ sym < g.num_symbols.toNat ∧ dest < g.num_states.toNat ∧
  ∃ via mid, via < g.num_states.toNat ∧ mid < g.num_states.toNat ∧
    g.epsilon_closure source via ≠ 0 ∧ g.symbol_transitions via sym mid ≠ 0 ∧
    g.epsilon_closure mid dest ≠ 0

/-- State `i` has in its closure a state that table `fin0` marks final. -/
def ReachesFinal (g : Globals) (fin0 : Nat → Int) (i : Nat) : Prop :=
  i < g.num_states.toNat ∧
    ∃ j, j < g.num_states.toNat ∧ g.epsilon_closure i j ≠ 0 ∧ fin0 j ≠ 0

/-- Acceptance of the word `w` (a list of symbol indices) from state `p` by the source
automaton: symbol transitions consume a letter, epsilon transitions do not, and the run
ends in a state of `final_states`.  States are the indices below `num_states`, letters
the indices below `num_symbols`. -/
inductive EpsAccepts (g : Globals) : Nat → List Nat → Prop
  | final (q : Nat) : q < g.num_states.toNat → g.final_states q ≠ 0 → EpsAccepts g q []
  | eps (p q : Nat) (w : List Nat) : p < g.num_states.toNat → q < g.num_states.toNat →
      g.epsilon_transitions p q ≠ 0 → EpsAccepts g q w → EpsAccepts g p w
  | sym (p a q : Nat) (w : List Nat) : p < g.num_states.toNat → a < g.num_symbols.toNat →
      q < g.num_states.toNat → g.symbol_transitions p a q ≠ 0 → EpsAccepts g q w →
      EpsAccepts g p (a :: w)

/-- Acceptance of the word `w` from state `p` by the converted automaton: every move
is a transition of `converted_transitions` consuming a letter, and the run ends in a
state of `final_states`. -/
inductive FreeAccepts (g : Globals) : Nat → List Nat → Prop
  | final (q : Nat) : q < g.num_states.toNat → g.final_states q ≠ 0 → FreeAccepts g q []
  | sym (p a q : Nat) (w : List Nat) : p < g.num_states.toNat → a < g.num_symbols.toNat →
      q < g.num_states.toNat → g.converted_transitions p a q ≠ 0 → FreeAccepts g q w →
      FreeAccepts g p (a :: w)

/-- The source epsilon-NFA accepts `w`: a run with epsilon moves from `initial_state`. -/
def AcceptsWithEpsilon (g : Globals) (w : List Nat) : Prop :=
  0 ≤ g.initial_state ∧ EpsAccepts g g.initial_state.toNat w

/-- The converted automaton accepts `w`: a run without epsilon moves from
`initial_state`. -/
def AcceptsEpsilonFree (g : Globals) (w : List Nat) : Prop :=
  0 ≤ g.initial_state ∧ FreeAccepts g g.initial_state.toNat w

/-- The input contract of the specification: a positive number of states, and every
state and symbol index that the automaton refers to lies in the declared range. -/
def ValidAutomaton (g : Globals) : Prop :=
  0 < g.num_states ∧
  (0 ≤ g.initial_state ∧ g.initial_state < g.num_states) ∧
  (∀ i, g.final_states i ≠ 0 → i < g.num_states.toNat) ∧
  (∀ p a q, g.symbol_transitions p a q ≠ 0 →
    p < g.num_states.toNat ∧ a < g.num_symbols.toNat ∧ q < g.num_states.toNat) ∧
  (∀ p q, g.epsilon_transitions p q ≠ 0 → p < g.num_states.toNat ∧ q < g.num_states.toNat)

/-- The automaton fits the tables: `num_states ≤ MAX_STATES` and
`num_symbols ≤ MAX_ALPHABET_SIZE`. -/
@[reducible]
def FitsTables (g : Globals) : Prop :=
  g.num_states ≤ MAX_STATES ∧ g.num_symbols ≤ MAX_ALPHABET_SIZE

/-- Every cell of the `epsilon_closure` array is `0`, as `initialize_data_structures`
leaves it. -/
def ClosureZeroed (g : Globals) : Prop :=
  ∀ i k, i < MAX_STATES → k < MAX_STATES → g.epsilon_closure i k = 0

/-- Every cell of the `converted_transitions` array is `0`, as
`initialize_data_structures` leaves it. -/
def ConvertedZeroed (g : Globals) : Prop :=
  ∀ i a k, i < MAX_STATES → a < MAX_ALPHABET_SIZE → k < MAX_STATES →
    g.converted_transitions i a k = 0

/-- Every cell of the `symbol_transitions` array is `0`, or is `1` at in-range indices:
the table as `initialize_data_structures` and `read_automaton_input` leave it when every
index read is in range. -/
def SymbolTableFilled (g : Globals) : Prop :=
  ∀ p a q, p < MAX_STATES → a < MAX_ALPHABET_SIZE → q < MAX_STATES →
    g.symbol_transitions p a q = 0 ∨
      (g.symbol_transitions p a q = 1 ∧ p < g.num_states.toNat ∧ a < g.num_symbols.toNat ∧
        q < g.num_states.toNat)

/-- Every cell of the `final_states` array is `0` or `1`, the only values the program
writes to it. -/
def FinalTableFilled (g : Globals) : Prop :=
  ∀ i, i < MAX_STATES → g.final_states i = 0 ∨ g.final_states i = 1

/-- The output of a conversion read back as an input: the converted transitions become
the symbol transitions, the final states are kept, there is no epsilon transition, and
the derived tables are zeroed. -/
def reload (r : Globals) : Globals :=
  { r with
    symbol_transitions := r.converted_transitions
    epsilon_transitions := fun _ _ => 0
    epsilon_closure := fun _ _ => 0
    converted_transitions := fun _ _ _ => 0 }

/-! ## Loop levels and invariants used in the proofs

`closureWith xs ys zs` is `compute_epsilon_closure` with the three loops over the states
visiting the lists `xs`, `ys`, `zs` instead of `0, 1, ..., num_states - 1`; the
other definitions name the individual loops of the program. -/

/-- The innermost loop (over `k`) of the closure pass. -/
def passK (eps : Table2) (zs : List Nat) (i j : Nat) (s : Table2 × Int) : Table2 × Int :=
  zs.foldl (fun s k => if eps j k ≠ 0 ∧ s.1 i k = 0 then (set2 s.1 i k 1, 1) else s) s

/-- The middle loop (over `j`) of the closure pass. -/
def passJ (eps : Table2) (ys zs : List Nat) (i : Nat) (s : Table2 × Int) : Table2 × Int :=
  ys.foldl (fun s j => if s.1 i j ≠ 0 then passK eps zs i j s else s) s

/-- One pass of the fixed-point loop: `has_changes = 0` followed by the loop nest. -/
def passWith (eps : Table2) (xs ys zs : List Nat) (s : Table2 × Int) : Table2 × Int :=
  xs.foldl (fun s i => passJ eps ys zs i s) (s.1, 0)

/-- The closure computation with the loops visiting `xs`, `ys`, `zs`. -/
def closureWith (xs ys zs : List Nat) (fuel : Nat) (g : Globals) : Option Globals :=
  (doWhile (passWith g.epsilon_transitions xs ys zs) (fun s => decide (s.2 ≠ 0)) fuel
    (xs.foldl (fun cl i => set2 cl i i 1) g.epsilon_closure, 0)).map
  (fun s => { g with epsilon_closure := s.1 })

/-- Number of unset cells of a table among the `n × n` cells in range. -/
def unsetCount (n : Nat) (cl : Table2) : Nat :=
  ((Finset.range n ×ˢ Finset.range n).filter (fun p => cl p.1 p.2 = 0)).card

/-- Number of set cells of a table among the `n × n` cells in range. -/
def setCount (n : Nat) (cl : Table2) : Nat :=
  ((Finset.range n ×ˢ Finset.range n).filter (fun p => cl p.1 p.2 ≠ 0)).card

/-- A property of the loop state that every single update of the pass preserves. -/
def UpdateStable (eps : Table2) (n : Nat) (P : Table2 × Int → Prop) : Prop :=
  ∀ s i j k, i < n → j < n → k < n → P s → s.1 i j ≠ 0 → eps j k ≠ 0 → s.1 i k = 0 →
    P (set2 s.1 i k 1, 1)

/-- Progress record of a pass started on table `cl0`: either nothing changed and
`has_changes` is `0`, or `has_changes` is `1` and strictly fewer cells are unset. -/
def PassInv (n : Nat) (cl0 : Table2) (s : Table2 × Int) : Prop :=
  (s.2 = 0 ∧ s.1 = cl0) ∨ (s.2 = 1 ∧ unsetCount n s.1 < unsetCount n cl0)

/-- The facts about the closure table that hold from the initialisation loop on. -/
structure ClInv (g : Globals) (cl : Table2) : Prop where
  refl : ∀ i, i < g.num_states.toNat → cl i i ≠ 0
  mono : ∀ i k, g.epsilon_closure i k ≠ 0 → cl i k ≠ 0
  sound : (∀ i k, i < g.num_states.toNat → k < g.num_states.toNat → g.epsilon_closure i k = 0) →
    ∀ i k, i < g.num_states.toNat → k < g.num_states.toNat → cl i k ≠ 0 → EpsReach g i k

/-- What the closure computation establishes about its result `r` on entry state `g`. -/
structure IsClosureOf (g r : Globals) : Prop where
  frame : r = { g with epsilon_closure := r.epsilon_closure }
  refl : ∀ i, i < g.num_states.toNat → r.epsilon_closure i i ≠ 0
  mono : ∀ i k, g.epsilon_closure i k ≠ 0 → r.epsilon_closure i k ≠ 0
  sound : (∀ i k, i < g.num_states.toNat → k < g.num_states.toNat → g.epsilon_closure i k = 0) →
    ∀ i k, i < g.num_states.toNat → k < g.num_states.toNat → r.epsilon_closure i k ≠ 0 →
      EpsReach g i k
  step : ∀ i j k, i < g.num_states.toNat → j < g.num_states.toNat → k < g.num_states.toNat →
    r.epsilon_closure i j ≠ 0 → g.epsilon_transitions j k ≠ 0 → r.epsilon_closure i k ≠ 0

/-- The loop over `destination`. -/
def elimDest (g : Globals) (source symbol_idx intermediate : Nat) (conv : Table3) : Table3 :=
  (List.range g.num_states.toNat).foldl (fun conv destination =>
    if g.epsilon_closure intermediate destination ≠ 0 then
      set3 conv source symbol_idx destination 1
    else conv) conv

/-- The loop over `intermediate`. -/
def elimMid (g : Globals) (source closure_state symbol_idx : Nat) (conv : Table3) : Table3 :=
  (List.range g.num_states.toNat).foldl (fun conv intermediate =>
    if g.symbol_transitions closure_state symbol_idx intermediate ≠ 0 then
      elimDest g source symbol_idx intermediate conv
    else conv) conv

/-- The loop over `symbol_idx`. -/
def elimSym (g : Globals) (source closure_state : Nat) (conv : Table3) : Table3 :=
  (List.range g.num_symbols.toNat).foldl (fun conv symbol_idx =>
    elimMid g source closure_state symbol_idx conv) conv

/-- The loop over `closure_state`. -/
def elimVia (g : Globals) (source : Nat) (conv : Table3) : Table3 :=
  (List.range g.num_states.toNat).foldl (fun conv closure_state =>
    if g.epsilon_closure source closure_state ≠ 0 then elimSym g source closure_state conv
    else conv) conv

/-- A property of the converted table preserved by every assignment the rewrite rule allows. -/
def RewriteStable (g : Globals) (P : Table3 → Prop) : Prop :=
  ∀ conv x a y, Rewritten g x a y → P conv → P (set3 conv x a y 1)

/-- The loop over `j` of `update_final_states`. -/
def finRow (g : Globals) (i : Nat) (fin : Nat → Int) : Nat → Int :=
  (List.range g.num_states.toNat).foldl (fun fin j =>
    if g.epsilon_closure i j ≠ 0 ∧ fin j ≠ 0 then set1 fin i 1 else fin) fin

/-- A property of the final-state table preserved by every assignment the loop performs. -/
def FinalStable (g : Globals) (P : (Nat → Int) → Prop) : Prop :=
  ∀ fin i j, i < g.num_states.toNat → j < g.num_states.toNat → P fin →
    g.epsilon_closure i j ≠ 0 → fin j ≠ 0 → P (set1 fin i 1)

/-- The loops of `initialize_data_structures` that zero row `i` of the two
three-dimensional tables. -/
def initSymRow (i : Nat) (g : Globals) : Globals :=
  (List.range MAX_ALPHABET_SIZE).foldl (fun g j =>
    (List.range MAX_STATES).foldl (fun g k =>
      let g := { g with symbol_transitions := set3 g.symbol_transitions i j k 0 }
      { g with converted_transitions := set3 g.converted_transitions i j k 0 }) g) g

/-- The loop of `initialize_data_structures` that zeroes row `i` of the two
two-dimensional tables. -/
def initEpsRow (i : Nat) (g : Globals) : Globals :=
  (List.range MAX_STATES).foldl (fun g j =>
    let g := { g with epsilon_transitions := set2 g.epsilon_transitions i j 0 }
    { g with epsilon_closure := set2 g.epsilon_closure i j 0 }) g

/-- Strict lexicographic order on index triples: by `fromState`, then by alphabet index,
then by `toState`. -/
def TripleLt (a b : Nat × Nat × Nat) : Prop :=
  a.1 < b.1 ∨ (a.1 = b.1 ∧ (a.2.1 < b.2.1 ∨ (a.2.1 = b.2.1 ∧ a.2.2 < b.2.2)))

/-- The transition lines that `display_result` prints for the row `i` and the symbol `j`. -/
def printedCell (g : Globals) (i j : Nat) : List PrintedTransition :=
  ((List.range g.num_states.toNat).filter
    (fun k => decide (g.converted_transitions i j k ≠ 0))).map
    (fun k => { from_state := i, symbol_idx := j, symbol := g.alphabet j, to_state := k })

/-- The transition lines that `display_result` prints for the row `i`. -/
def printedRow (g : Globals) (i : Nat) : List PrintedTransition :=
  (List.range g.num_symbols.toNat).flatMap (fun j => printedCell g i j)

/-! ## Concrete automata -/

/-- The automaton used against the reading "the transitions of a state without
epsilon transitions are unchanged": states `0, 1, 2`, one symbol, the symbol transition
`(0, a, 1)` and the epsilon transition `(1, 2)`. -/
def cexAutomaton : Globals where
  num_states := 3
  num_symbols := 1
  alphabet := fun _ => 'a'
  initial_state := 0
  final_states := fun i => if i = 2 then 1 else 0
  symbol_transitions := fun p a q => if p = 0 ∧ a = 0 ∧ q = 1 then 1 else 0
  epsilon_transitions := fun p q => if p = 1 ∧ q = 2 then 1 else 0
  epsilon_closure := fun _ _ => 0
  converted_transitions := fun _ _ _ => 0

/-- The automaton of the first scenario: states `0, 1, 2`, one symbol, initial state `0`,
final state `2`, the symbol transition `(1, a, 2)` and the epsilon transition `(0, 1)`. -/
def sampleAutomaton : Globals where
  num_states := 3
  num_symbols := 1
  alphabet := fun _ => 'a'
  initial_state := 0
  final_states := fun i => if i = 2 then 1 else 0
  symbol_transitions := fun p a q => if p = 1 ∧ a = 0 ∧ q = 2 then 1 else 0
  epsilon_transitions := fun p q => if p = 0 ∧ q = 1 then 1 else 0
  epsilon_closure := fun _ _ => 0
  converted_transitions := fun _ _ _ => 0

/-- The automaton `sampleAutomaton` with its closure table filled in:
`closure(0) = {0, 1}`, `closure(1) = {1}`, `closure(2) = {2}`. -/
def sampleWithClosure : Globals :=
  { sampleAutomaton with
    epsilon_closure := fun i k => if i = k ∨ (i = 0 ∧ k = 1) then 1 else 0 }

/-- An automaton without epsilon transitions: states `0, 1, 2`, one symbol, final state
`2`, symbol transitions `(0, a, 1)` and `(1, a, 2)`. -/
def sampleNoEpsilon : Globals where
  num_states := 3
  num_symbols := 1
  alphabet := fun _ => 'a'
  initial_state := 0
  final_states := fun i => if i = 2 then 1 else 0
  symbol_transitions := fun p a q => if a = 0 ∧ q = p + 1 ∧ q < 3 then 1 else 0
  epsilon_transitions := fun _ _ => 0
  epsilon_closure := fun _ _ => 0
  converted_transitions := fun _ _ _ => 0

/-- The automaton of the second scenario: `sampleAutomaton` with the epsilon transition
`(0, 2)` added, so the epsilon transitions are `(0, 1)` and `(0, 2)`. -/
def scenarioTwo : Globals :=
  { sampleAutomaton with
    epsilon_transitions := fun p q => if p = 0 ∧ (q = 1 ∨ q = 2) then 1 else 0 }

/-- An automaton that meets the input contract and has more states than the tables have
rows: eleven states, one symbol, initial state `0`, no final state and no transition. -/
def oversizedAutomaton : Globals where
  num_states := 11
  num_symbols := 1
  alphabet := fun _ => 'a'
  initial_state := 0
  final_states := fun _ => 0
  symbol_transitions := fun _ _ _ => 0
  epsilon_transitions := fun _ _ => 0
  epsilon_closure := fun _ _ => 0
  converted_transitions := fun _ _ _ => 0

/-- Some memory content before the program starts. -/
def zeroGlobals : Globals where
  num_states := 0
  num_symbols := 0
  alphabet := fun _ => ' '
  initial_state := 0
  final_states := fun _ => 0
  symbol_transitions := fun _ _ _ => 0
  epsilon_transitions := fun _ _ => 0
  epsilon_closure := fun _ _ => 0
  converted_transitions := fun _ _ _ => 0

/-- An input that violates the declared ranges everywhere: three states and the alphabet
`a` are declared; the initial state is `5`, the final state is `7`, one symbol transition
uses the symbol `b`, another leaves state `4`, and the epsilon transition is `(8, 2)`. -/
def invalidInput : AutomatonInput where
  num_states := 3
  num_symbols := 1
  alphabet := fun _ => 'a'
  initial_state := 5
  final_states := [7]
  symbol_transitions := [(0, 'b', 9), (4, 'a', 1)]
  epsilon_transitions := [(8, 2)]

/-- An input with non-positive counts: `num_states = 0` and `num_symbols = -1`. -/
def emptyInput : AutomatonInput where
  num_states := 0
  num_symbols := -1
  alphabet := fun _ => 'a'
  initial_state := 0
  final_states := []
  symbol_transitions := []
  epsilon_transitions := []

/-! ## Generic loop lemmas -/

/-- Loop invariant rule: a property that holds before the loop and is preserved by every
iteration holds after the loop. -/
theorem foldl_inv {σ α : Type} (I : σ → Prop) (f : σ → α → σ) (xs : List α) (s : σ)
    (hs : I s) (hf : ∀ s x, x ∈ xs → I s → I (f s x)) : I (xs.foldl f s) := by
  induction xs generalizing s with
  | nil => simpa using hs
  | cons x xs ih =>
    simp only [List.foldl_cons]
    exact ih _ (hf s x (by simp) hs) (fun s y hy h => hf s y (by simp [hy]) h)

/-- Loop progress rule: if iteration `x` establishes `T` and every iteration preserves
`T` (under the invariant `I`), then `T` holds after the loop. -/
theorem foldl_reach {σ α : Type} (I T : σ → Prop) (f : σ → α → σ) (xs : List α) (s : σ)
    (hs : I s) (hI : ∀ s x, x ∈ xs → I s → I (f s x))
    (hT : ∀ s x, x ∈ xs → I s → T s → T (f s x))
    (x : α) (hx : x ∈ xs) (hit : ∀ s, I s → T (f s x)) : T (xs.foldl f s) := by
  induction xs generalizing s with
  | nil => simp at hx
  | cons y ys ih =>
    simp only [List.foldl_cons]
    rcases List.mem_cons.mp hx with rfl | hx
    · have h1 : I (f s x) ∧ T (f s x) := ⟨hI s x (by simp) hs, hit s hs⟩
      have := foldl_inv (fun s => I s ∧ T s) f ys (f s x) h1
        (fun s z hz h => ⟨hI s z (by simp [hz]) h.1, hT s z (by simp [hz]) h.1 h.2⟩)
      exact this.2
    · exact ih _ (hI s y (by simp) hs) (fun s z hz h => hI s z (by simp [hz]) h)
        (fun s z hz h => hT s z (by simp [hz]) h) hx

/-- Termination rule for `doWhile`: if every pass that asks for another pass decreases the
measure `μ`, then `fuel > μ s` passes suffice, and the result is the pass `body s'` of a
state `s'` satisfying the invariant after which the loop condition is false. -/
theorem doWhile_some {σ : Type} (body : σ → σ) (cond : σ → Bool) (I : σ → Prop) (μ : σ → Nat)
    (hI : ∀ s, I s → I (body s))
    (hμ : ∀ s, I s → cond (body s) = true → μ (body s) < μ s) :
    ∀ fuel s, I s → μ s < fuel →
      ∃ s', I s' ∧ cond (body s') = false ∧ doWhile body cond fuel s = some (body s') := by
  intro fuel
  induction fuel with
  | zero => intro s _ h; omega
  | succ fuel ih =>
    intro s hs hlt
    by_cases hc : cond (body s) = true
    · have hlt2 : μ (body s) < fuel := by have := hμ s hs hc; omega
      obtain ⟨s', h1, h2, h3⟩ := ih (body s) (hI s hs) hlt2
      exact ⟨s', h1, h2, by simp [doWhile, hc, h3]⟩
    · exact ⟨s, hs, by simpa using hc, by simp [doWhile, hc]⟩

/-! ## The closure computation -/

/-- The program's closure computation is `closureWith` with the three loops visiting
`0, 1, ..., num_states - 1` in ascending order. -/
theorem compute_epsilon_closure_eq (fuel : Nat) (g : Globals) :
    compute_epsilon_closure fuel g =
      closureWith (List.range g.num_states.toNat) (List.range g.num_states.toNat)
        (List.range g.num_states.toNat) fuel g := rfl

theorem unsetCount_le (n : Nat) (cl : Table2) : unsetCount n cl ≤ n * n := by
  unfold unsetCount
  calc _ ≤ (Finset.range n ×ˢ Finset.range n).card := Finset.card_filter_le _ _
    _ = n * n := by simp

theorem unsetCount_set2 (n : Nat) (cl : Table2) (i k : Nat) (hi : i < n) (hk : k < n)
    (h0 : cl i k = 0) : unsetCount n (set2 cl i k 1) < unsetCount n cl := by
  unfold unsetCount
  apply Finset.card_lt_card
  rw [Finset.ssubset_iff_of_subset]
  · refine ⟨(i, k), ?_, ?_⟩
    · simp [hi, hk, h0]
    · simp [set2]
  · intro p hp
    simp only [Finset.mem_filter, Finset.mem_product, Finset.mem_range, set2] at hp ⊢
    refine ⟨hp.1, ?_⟩
    have h2 := hp.2
    split at h2
    · simp at h2
    · exact h2

theorem passK_inv (eps : Table2) (n : Nat) (P : Table2 × Int → Prop) (hP : UpdateStable eps n P)
    (zs : List Nat) (hzs : ∀ k ∈ zs, k < n) (i j : Nat) (hi : i < n) (hj : j < n)
    (s : Table2 × Int) (hs : P s) (hij : s.1 i j ≠ 0) : P (passK eps zs i j s) := by
  have key := foldl_inv (fun s => P s ∧ s.1 i j ≠ 0)
    (fun s k => if eps j k ≠ 0 ∧ s.1 i k = 0 then (set2 s.1 i k 1, 1) else s) zs s ⟨hs, hij⟩
    (by
      intro s k hk h
      by_cases hc : eps j k ≠ 0 ∧ s.1 i k = 0
      · simp only [if_pos hc]
        refine ⟨hP s i j k hi hj (hzs k hk) h.1 h.2 hc.1 hc.2, ?_⟩
        simp only [set2]
        split
        · decide
        · exact h.2
      · simp only [if_neg hc]; exact h)
  exact key.1

theorem passJ_inv (eps : Table2) (n : Nat) (P : Table2 × Int → Prop) (hP : UpdateStable eps n P)
    (ys zs : List Nat) (hys : ∀ j ∈ ys, j < n) (hzs : ∀ k ∈ zs, k < n) (i : Nat) (hi : i < n)
    (s : Table2 × Int) (hs : P s) : P (passJ eps ys zs i s) := by
  apply foldl_inv P _ ys s hs
  intro s j hj h
  by_cases hc : s.1 i j ≠ 0
  · rw [if_pos hc]; exact passK_inv eps n P hP zs hzs i j hi (hys j hj) s h hc
  · rw [if_neg hc]; exact h

theorem passWith_inv (eps : Table2) (n : Nat) (P : Table2 × Int → Prop) (hP : UpdateStable eps n P)
    (xs ys zs : List Nat) (hxs : ∀ i ∈ xs, i < n) (hys : ∀ j ∈ ys, j < n) (hzs : ∀ k ∈ zs, k < n)
    (s : Table2 × Int) (hs : P (s.1, 0)) : P (passWith eps xs ys zs s) := by
  apply foldl_inv P _ xs (s.1, 0) hs
  intro s i hi h
  exact passJ_inv eps n P hP ys zs hys hzs i (hxs i hi) s h

theorem passInv_stable (eps : Table2) (n : Nat) (cl0 : Table2) :
    UpdateStable eps n (PassInv n cl0) := by
  intro s i j k hi _ hk h _ _ h0
  right
  refine ⟨rfl, ?_⟩
  have hlt := unsetCount_set2 n s.1 i k hi hk h0
  rcases h with ⟨_, h2⟩ | ⟨_, h2⟩
  · have h3 : unsetCount n s.1 = unsetCount n cl0 := by rw [h2]
    exact h3 ▸ hlt
  · exact lt_trans hlt h2

theorem flag_stable (eps : Table2) (n : Nat) :
    UpdateStable eps n (fun s => s.2 = 1) := by
  intro s i j k _ _ _ _ _ _ _
  rfl

theorem passWith_passInv (eps : Table2) (n : Nat)
    (xs ys zs : List Nat) (hxs : ∀ i ∈ xs, i < n) (hys : ∀ j ∈ ys, j < n) (hzs : ∀ k ∈ zs, k < n)
    (s : Table2 × Int) : PassInv n s.1 (passWith eps xs ys zs s) :=
  passWith_inv eps n _ (passInv_stable eps n s.1) xs ys zs hxs hys hzs s (Or.inl ⟨rfl, rfl⟩)

/-- A pass that sees a cell `(i, j)` set, an epsilon transition `(j, k)` and the cell
`(i, k)` unset at its start ends with `has_changes = 1`. -/
theorem passWith_flag (eps : Table2) (n : Nat)
    (xs ys zs : List Nat) (hxs : ∀ i ∈ xs, i < n) (hys : ∀ j ∈ ys, j < n) (hzs : ∀ k ∈ zs, k < n)
    (s : Table2 × Int) (i j k : Nat) (hi : i ∈ xs) (hj : j ∈ ys) (hk : k ∈ zs)
    (hij : s.1 i j ≠ 0) (hjk : eps j k ≠ 0) (hik : s.1 i k = 0) :
    (passWith eps xs ys zs s).2 = 1 := by
  have hflagK : ∀ (i j : Nat), i < n → j < n → ∀ t : Table2 × Int, t.2 = 1 →
      (if t.1 i j ≠ 0 then passK eps zs i j t else t).2 = 1 := by
    intro i j hi hj t ht
    by_cases hc : t.1 i j ≠ 0
    · rw [if_pos hc]; exact passK_inv eps n _ (flag_stable eps n) zs hzs i j hi hj t ht hc
    · rw [if_neg hc]; exact ht
  have hinvK : ∀ (i j : Nat), i < n → j < n → ∀ t : Table2 × Int, PassInv n s.1 t →
      PassInv n s.1 (if t.1 i j ≠ 0 then passK eps zs i j t else t) := by
    intro i j hi hj t ht
    by_cases hc : t.1 i j ≠ 0
    · rw [if_pos hc]; exact passK_inv eps n _ (passInv_stable eps n s.1) zs hzs i j hi hj t ht hc
    · rw [if_neg hc]; exact ht
  apply foldl_reach (PassInv n s.1) (fun t => t.2 = 1) _ xs (s.1, 0) (Or.inl ⟨rfl, rfl⟩)
    (fun t x hx h => passJ_inv eps n _ (passInv_stable eps n s.1) ys zs hys hzs x (hxs x hx) t h)
    (fun t x hx _ h => passJ_inv eps n _ (flag_stable eps n) ys zs hys hzs x (hxs x hx) t h)
    i hi
  intro t ht
  apply foldl_reach (PassInv n s.1) (fun t => t.2 = 1) _ ys t ht
    (fun t y hy h => hinvK i y (hxs i hi) (hys y hy) t h)
    (fun t y hy _ h => hflagK i y (hxs i hi) (hys y hy) t h)
    j hj
  intro t ht
  rcases ht with ⟨_, h2⟩ | ⟨h1, h2⟩
  · have hc : t.1 i j ≠ 0 := by rw [h2]; exact hij
    rw [if_pos hc]
    apply foldl_reach (fun t => PassInv n s.1 t ∧ t.1 i j ≠ 0) (fun t => t.2 = 1) _ zs t
      ⟨Or.inl ⟨by assumption, h2⟩, hc⟩ _ _ k hk
    · intro t ht
      rcases ht.1 with ⟨_, h2⟩ | ⟨h1, _⟩
      · have hc : eps j k ≠ 0 ∧ t.1 i k = 0 := ⟨hjk, by rw [h2]; exact hik⟩
        simp only [if_pos hc]
      · by_cases hc : eps j k ≠ 0 ∧ t.1 i k = 0
        · simp only [if_pos hc]
        · simp only [if_neg hc]; exact h1
    · intro t z hz h
      by_cases hc : eps j z ≠ 0 ∧ t.1 i z = 0
      · simp only [if_pos hc]
        refine ⟨passInv_stable eps n s.1 t i j z (hxs i hi) (hys j hj) (hzs z hz) h.1 h.2 hc.1 hc.2, ?_⟩
        simp only [set2]
        split
        · decide
        · exact h.2
      · simp only [if_neg hc]; exact h
    · intro t z _ _ h
      by_cases hc : eps j z ≠ 0 ∧ t.1 i z = 0
      · simp only [if_pos hc]
      · simp only [if_neg hc]; exact h
  · exact hflagK i j (hxs i hi) (hys j hj) t h1

theorem set2_one_ne_zero (t : Table2) (i k x y : Nat) (h : t x y ≠ 0) : set2 t i k 1 x y ≠ 0 := by
  simp only [set2]
  split
  · decide
  · exact h

theorem set2_ne_zero_cases (t : Table2) (i k x y : Nat) (v : Int) (h : set2 t i k v x y ≠ 0) :
    (x = i ∧ y = k) ∨ t x y ≠ 0 := by
  simp only [set2] at h
  split at h
  · left; assumption
  · right; exact h

theorem clInv_stable (g : Globals) :
    UpdateStable g.epsilon_transitions g.num_states.toNat (fun s => ClInv g s.1) := by
  intro s i j k hi hj hk h hij hjk _
  refine ⟨?_, ?_, ?_⟩
  · intro x hx
    exact set2_one_ne_zero _ _ _ _ _ (h.refl x hx)
  · intro x y hxy
    exact set2_one_ne_zero _ _ _ _ _ (h.mono x y hxy)
  · intro hz x y hx hy hxy
    rcases set2_ne_zero_cases _ _ _ _ _ _ hxy with ⟨rfl, rfl⟩ | h1
    · exact Relation.ReflTransGen.tail (h.sound hz x j hi hj hij) ⟨hj, hk, hjk⟩
    · exact h.sound hz x y hx hy h1

theorem init_clInv (g : Globals) (xs : List Nat) (hxs : ∀ x, x ∈ xs ↔ x < g.num_states.toNat) :
    ClInv g (xs.foldl (fun cl i => set2 cl i i 1) g.epsilon_closure) := by
  refine ⟨?_, ?_, ?_⟩
  · intro i hi
    apply foldl_reach (fun _ => True) (fun cl : Table2 => cl i i ≠ 0) _ xs _ trivial
      (fun _ _ _ _ => trivial) _ i ((hxs i).mpr hi)
    · intro cl _
      simp [set2]
    · intro cl x _ _ h
      exact set2_one_ne_zero _ _ _ _ _ h
  · intro i k hik
    apply foldl_inv (fun cl : Table2 => cl i k ≠ 0) _ xs _ hik
    intro cl x _ h
    exact set2_one_ne_zero _ _ _ _ _ h
  · intro hz i k hi hk
    apply foldl_inv (fun cl : Table2 => cl i k ≠ 0 → EpsReach g i k) _ xs _
    · intro h; exact absurd (hz i k hi hk) h
    · intro cl x _ h hne
      rcases set2_ne_zero_cases _ _ _ _ _ _ hne with ⟨rfl, rfl⟩ | h1
      · exact Relation.ReflTransGen.refl
      · exact h h1

/-- With enough passes allowed the closure computation returns, whatever the order in
which the three loops visit the states, and its result satisfies `IsClosureOf`. -/
theorem closureWith_spec (g : Globals) (xs ys zs : List Nat)
    (hxs : ∀ x, x ∈ xs ↔ x < g.num_states.toNat) (hys : ∀ x, x ∈ ys ↔ x < g.num_states.toNat)
    (hzs : ∀ x, x ∈ zs ↔ x < g.num_states.toNat)
    (fuel : Nat) (hfuel : g.num_states.toNat * g.num_states.toNat < fuel) :
    ∃ r, closureWith xs ys zs fuel g = some r ∧ IsClosureOf g r := by
  have hx := fun x h => (hxs x).mp h
  have hy := fun x h => (hys x).mp h
  have hz := fun x h => (hzs x).mp h
  obtain ⟨s', hI, hc, hrun⟩ := doWhile_some (passWith g.epsilon_transitions xs ys zs)
    (fun s => decide (s.2 ≠ 0)) (fun s => ClInv g s.1) (fun s => unsetCount g.num_states.toNat s.1)
    (fun s h => passWith_inv _ _ _ (clInv_stable g) xs ys zs hx hy hz s h)
    (by
      intro s _ hcond
      rcases passWith_passInv g.epsilon_transitions g.num_states.toNat xs ys zs hx hy hz s
        with ⟨h0, _⟩ | ⟨_, h1⟩
      · simp [h0] at hcond
      · exact h1)
    fuel (xs.foldl (fun cl i => set2 cl i i 1) g.epsilon_closure, 0) (init_clInv g xs hxs)
    (lt_of_le_of_lt (unsetCount_le _ _) hfuel)
  have hflag : (passWith g.epsilon_transitions xs ys zs s').2 = 0 := by simpa using hc
  have hsame : (passWith g.epsilon_transitions xs ys zs s').1 = s'.1 := by
    rcases passWith_passInv g.epsilon_transitions g.num_states.toNat xs ys zs hx hy hz s'
      with ⟨_, h1⟩ | ⟨h1, _⟩
    · exact h1
    · rw [hflag] at h1; exact absurd h1 (by decide)
  refine ⟨{ g with epsilon_closure := (passWith g.epsilon_transitions xs ys zs s').1 }, ?_, ?_⟩
  · unfold closureWith
    rw [hrun]
    rfl
  · rw [hsame]
    refine ⟨rfl, hI.refl, hI.mono, hI.sound, ?_⟩
    intro i j k hi hj hk hij hjk
    by_contra hik
    have h1 := passWith_flag g.epsilon_transitions g.num_states.toNat xs ys zs hx hy hz s' i j k
      ((hxs i).mpr hi) ((hys j).mpr hj) ((hzs k).mpr hk) hij hjk (by simpa using hik)
    rw [hflag] at h1
    exact absurd h1 (by decide)

theorem compute_epsilon_closure_spec (g : Globals) (fuel : Nat)
    (hfuel : g.num_states.toNat * g.num_states.toNat < fuel) :
    ∃ r, compute_epsilon_closure fuel g = some r ∧ IsClosureOf g r :=
  closureWith_spec g _ _ _ (fun _ => List.mem_range) (fun _ => List.mem_range)
    (fun _ => List.mem_range) fuel hfuel

theorem IsClosureOf.complete {g r : Globals} (h : IsClosureOf g r) (i k : Nat)
    (hi : i < g.num_states.toNat) (hr : EpsReach g i k) : r.epsilon_closure i k ≠ 0 := by
  induction hr with
  | refl => exact h.refl i hi
  | tail hab hstep ih =>
    exact h.step i _ _ hi hstep.1 hstep.2.1 ih hstep.2.2

theorem IsClosureOf.iff_reach {g r : Globals} (h : IsClosureOf g r)
    (hz : ∀ i k, i < g.num_states.toNat → k < g.num_states.toNat → g.epsilon_closure i k = 0)
    (i k : Nat) (hi : i < g.num_states.toNat) (hk : k < g.num_states.toNat) :
    r.epsilon_closure i k ≠ 0 ↔ EpsReach g i k :=
  ⟨h.sound hz i k hi hk, h.complete i k hi⟩

theorem IsClosureOf.trans {g r : Globals} (h : IsClosureOf g r)
    (hz : ∀ i k, i < g.num_states.toNat → k < g.num_states.toNat → g.epsilon_closure i k = 0)
    (s t u : Nat) (hs : s < g.num_states.toNat) (ht : t < g.num_states.toNat)
    (hu : u < g.num_states.toNat)
    (hst : r.epsilon_closure s t ≠ 0) (htu : r.epsilon_closure t u ≠ 0) :
    r.epsilon_closure s u ≠ 0 :=
  h.complete s u hs (Relation.ReflTransGen.trans (h.sound hz s t hs ht hst) (h.sound hz t u ht hu htu))

/-! ## Elimination of the epsilon transitions -/

theorem eliminate_epsilon_transitions_eq (g : Globals) :
    eliminate_epsilon_transitions g =
      { g with converted_transitions :=
          (List.foldl (fun conv source => elimVia g source conv) g.converted_transitions
            (List.range g.num_states.toNat)) } := rfl

theorem elimDest_inv (g : Globals) (P : Table3 → Prop) (hP : RewriteStable g P)
    (source via sym mid : Nat) (hs : source < g.num_states.toNat) (hv : via < g.num_states.toNat)
    (ha : sym < g.num_symbols.toNat) (hm : mid < g.num_states.toNat)
    (h1 : g.epsilon_closure source via ≠ 0) (h2 : g.symbol_transitions via sym mid ≠ 0)
    (conv : Table3) (h : P conv) : P (elimDest g source sym mid conv) := by
  apply foldl_inv P _ _ conv h
  intro conv dest hd h
  by_cases hc : g.epsilon_closure mid dest ≠ 0
  · simp only [if_pos hc]
    exact hP conv source sym dest ⟨hs, ha, List.mem_range.mp hd, via, mid, hv, hm, h1, h2, hc⟩ h
  · simp only [if_neg hc]; exact h

theorem elimMid_inv (g : Globals) (P : Table3 → Prop) (hP : RewriteStable g P)
    (source via sym : Nat) (hs : source < g.num_states.toNat) (hv : via < g.num_states.toNat)
    (ha : sym < g.num_symbols.toNat) (h1 : g.epsilon_closure source via ≠ 0)
    (conv : Table3) (h : P conv) : P (elimMid g source via sym conv) := by
  apply foldl_inv P _ _ conv h
  intro conv mid hm h
  by_cases hc : g.symbol_transitions via sym mid ≠ 0
  · simp only [if_pos hc]
    exact elimDest_inv g P hP source via sym mid hs hv ha (List.mem_range.mp hm) h1 hc conv h
  · simp only [if_neg hc]; exact h

theorem elimSym_inv (g : Globals) (P : Table3 → Prop) (hP : RewriteStable g P)
    (source via : Nat) (hs : source < g.num_states.toNat) (hv : via < g.num_states.toNat)
    (h1 : g.epsilon_closure source via ≠ 0)
    (conv : Table3) (h : P conv) : P (elimSym g source via conv) := by
  apply foldl_inv P _ _ conv h
  intro conv sym ha h
  exact elimMid_inv g P hP source via sym hs hv (List.mem_range.mp ha) h1 conv h

theorem elimVia_inv (g : Globals) (P : Table3 → Prop) (hP : RewriteStable g P)
    (source : Nat) (hs : source < g.num_states.toNat)
    (conv : Table3) (h : P conv) : P (elimVia g source conv) := by
  apply foldl_inv P _ _ conv h
  intro conv via hv h
  by_cases hc : g.epsilon_closure source via ≠ 0
  · simp only [if_pos hc]
    exact elimSym_inv g P hP source via hs (List.mem_range.mp hv) hc conv h
  · simp only [if_neg hc]; exact h

theorem eliminate_inv (g : Globals) (P : Table3 → Prop) (hP : RewriteStable g P)
    (h : P g.converted_transitions) : P (eliminate_epsilon_transitions g).converted_transitions := by
  rw [eliminate_epsilon_transitions_eq]
  apply foldl_inv P _ _ _ h
  intro conv source hs h
  exact elimVia_inv g P hP source (List.mem_range.mp hs) conv h

theorem set3_self (t : Table3) (x a y : Nat) (v : Int) : set3 t x a y v x a y = v := by
  simp [set3]

theorem cell_one_stable (g : Globals) (x a y : Nat) :
    RewriteStable g (fun conv => conv x a y = 1) := by
  intro conv x' a' y' _ h
  simp only [set3]
  split
  · rfl
  · exact h

/-- Every triple allowed by the rewrite rule is assigned `1`. -/
theorem eliminate_complete (g : Globals) (x a y : Nat) (h : Rewritten g x a y) :
    (eliminate_epsilon_transitions g).converted_transitions x a y = 1 := by
  obtain ⟨hx, ha, hy, via, mid, hv, hm, h1, h2, h3⟩ := h
  have hP := cell_one_stable g x a y
  rw [eliminate_epsilon_transitions_eq]
  apply foldl_reach (fun _ => True) (fun conv : Table3 => conv x a y = 1) _ _ _ trivial
    (fun _ _ _ _ => trivial)
    (fun conv s hs _ h => elimVia_inv g _ hP s (List.mem_range.mp hs) conv h)
    x (List.mem_range.mpr hx)
  intro conv _
  apply foldl_reach (fun _ => True) (fun conv : Table3 => conv x a y = 1) _ _ _ trivial
    (fun _ _ _ _ => trivial) _ via (List.mem_range.mpr hv)
  · intro conv _
    simp only [if_pos h1]
    apply foldl_reach (fun _ => True) (fun conv : Table3 => conv x a y = 1) _ _ _ trivial
      (fun _ _ _ _ => trivial)
      (fun conv b hb _ h => elimMid_inv g _ hP x via b hx hv (List.mem_range.mp hb) h1 conv h)
      a (List.mem_range.mpr ha)
    intro conv _
    apply foldl_reach (fun _ => True) (fun conv : Table3 => conv x a y = 1) _ _ _ trivial
      (fun _ _ _ _ => trivial) _ mid (List.mem_range.mpr hm)
    · intro conv _
      simp only [if_pos h2]
      apply foldl_reach (fun _ => True) (fun conv : Table3 => conv x a y = 1) _ _ _ trivial
        (fun _ _ _ _ => trivial) _ y (List.mem_range.mpr hy)
      · intro conv _
        simp only [if_pos h3]
        exact set3_self _ _ _ _ _
      · intro conv d _ _ h
        by_cases hc : g.epsilon_closure mid d ≠ 0
        · simp only [if_pos hc, set3]
          split
          · rfl
          · exact h
        · simp only [if_neg hc]; exact h
    · intro conv m hm' _ h
      by_cases hc : g.symbol_transitions via a m ≠ 0
      · simp only [if_pos hc]
        exact elimDest_inv g _ hP x via a m hx hv ha (List.mem_range.mp hm') h1 hc conv h
      · simp only [if_neg hc]; exact h
  · intro conv v hv' _ h
    by_cases hc : g.epsilon_closure x v ≠ 0
    · simp only [if_pos hc]
      exact elimSym_inv g _ hP x v hx (List.mem_range.mp hv') hc conv h
    · simp only [if_neg hc]; exact h

/-- A cell the rewrite rule does not allow keeps its value. -/
theorem eliminate_frame (g : Globals) (x a y : Nat) (h : ¬ Rewritten g x a y) :
    (eliminate_epsilon_transitions g).converted_transitions x a y = g.converted_transitions x a y := by
  apply eliminate_inv g (fun conv => conv x a y = g.converted_transitions x a y) _ rfl
  intro conv x' a' y' hr hc
  simp only [set3]
  split
  · next heq =>
    obtain ⟨rfl, rfl, rfl⟩ := heq
    exact absurd hr h
  · exact hc

/-! ## Extension of the final states -/

theorem update_final_states_eq (g : Globals) :
    update_final_states g =
      { g with final_states :=
          (List.foldl (fun fin i => finRow g i fin) g.final_states
            (List.range g.num_states.toNat)) } := rfl

theorem finRow_inv (g : Globals) (P : (Nat → Int) → Prop) (hP : FinalStable g P)
    (i : Nat) (hi : i < g.num_states.toNat) (fin : Nat → Int) (h : P fin) :
    P (finRow g i fin) := by
  apply foldl_inv P _ _ fin h
  intro fin j hj h
  by_cases hc : g.epsilon_closure i j ≠ 0 ∧ fin j ≠ 0
  · simp only [if_pos hc]
    exact hP fin i j hi (List.mem_range.mp hj) h hc.1 hc.2
  · simp only [if_neg hc]; exact h

theorem update_final_states_inv (g : Globals) (P : (Nat → Int) → Prop) (hP : FinalStable g P)
    (h : P g.final_states) : P (update_final_states g).final_states := by
  rw [update_final_states_eq]
  apply foldl_inv P _ _ _ h
  intro fin i hi h
  exact finRow_inv g P hP i (List.mem_range.mp hi) fin h

theorem set1_one_ne_zero (t : Nat → Int) (i x : Nat) (h : t x ≠ 0) : set1 t i 1 x ≠ 0 := by
  simp only [set1]
  split
  · decide
  · exact h

theorem final_mono_stable (g : Globals) (fin0 : Nat → Int) :
    FinalStable g (fun fin => ∀ x, fin0 x ≠ 0 → fin x ≠ 0) := by
  intro fin i j _ _ h _ _ x hx
  exact set1_one_ne_zero fin i x (h x hx)

/-- A state marked final stays marked final. -/
theorem update_final_states_mono (g : Globals) (x : Nat) (h : g.final_states x ≠ 0) :
    (update_final_states g).final_states x ≠ 0 :=
  update_final_states_inv g _ (final_mono_stable g g.final_states) (fun _ h => h) x h

/-- Every cell of the final-state table keeps its value or becomes `1`, the latter only
for a state whose closure holds an originally final state.  This uses that the closure
table is transitive, because the loop reads cells it has already updated. -/
theorem update_final_states_sound (g : Globals)
    (htrans : ∀ s t u, s < g.num_states.toNat → t < g.num_states.toNat → u < g.num_states.toNat →
      g.epsilon_closure s t ≠ 0 → g.epsilon_closure t u ≠ 0 → g.epsilon_closure s u ≠ 0)
    (x : Nat) :
    (update_final_states g).final_states x = g.final_states x ∨
      ((update_final_states g).final_states x = 1 ∧ ReachesFinal g g.final_states x) := by
  apply update_final_states_inv g (fun fin => ∀ x, fin x = g.final_states x ∨
      (fin x = 1 ∧ ReachesFinal g g.final_states x)) _ (fun _ => Or.inl rfl)
  intro fin i j hi hj h hij hfj y
  simp only [set1]
  split
  · next heq =>
    subst heq
    right
    refine ⟨rfl, hi, ?_⟩
    rcases h j with h1 | ⟨_, _, z, hz, hjz, hfz⟩
    · exact ⟨j, hj, hij, by rw [← h1]; exact hfj⟩
    · exact ⟨z, hz, htrans y j z hi hj hz hij hjz, hfz⟩
  · exact h y

/-- A state whose closure holds an originally final state is marked final. -/
theorem update_final_states_complete (g : Globals) (i : Nat)
    (h : ReachesFinal g g.final_states i) : (update_final_states g).final_states i ≠ 0 := by
  obtain ⟨hi, j, hj, hij, hfj⟩ := h
  have hmono := final_mono_stable g g.final_states
  have hkeep : FinalStable g (fun fin => fin i ≠ 0) := by
    intro fin i' _ _ _ h _ _
    exact set1_one_ne_zero fin i' i h
  rw [update_final_states_eq]
  apply foldl_reach (fun fin : Nat → Int => ∀ x, g.final_states x ≠ 0 → fin x ≠ 0)
    (fun fin : Nat → Int => fin i ≠ 0) _ _ _ (fun _ h => h)
    (fun fin x hx h => finRow_inv g _ hmono x (List.mem_range.mp hx) fin h)
    (fun fin x hx _ h => finRow_inv g _ hkeep x (List.mem_range.mp hx) fin h)
    i (List.mem_range.mpr hi)
  intro fin hfin
  unfold finRow
  apply foldl_reach (fun fin : Nat → Int => ∀ x, g.final_states x ≠ 0 → fin x ≠ 0)
    (fun fin : Nat → Int => fin i ≠ 0) _ _ _ hfin _ _ j (List.mem_range.mpr hj)
  · intro fin hfin
    have hc : g.epsilon_closure i j ≠ 0 ∧ fin j ≠ 0 := ⟨hij, hfin j hfj⟩
    simp [if_pos hc, set1]
  · intro fin y hy h
    by_cases hc : g.epsilon_closure i y ≠ 0 ∧ fin y ≠ 0
    · simp only [if_pos hc]
      exact hmono fin i y hi (List.mem_range.mp hy) h hc.1 hc.2
    · simp only [if_neg hc]; exact h
  · intro fin y hy _ h
    by_cases hc : g.epsilon_closure i y ≠ 0 ∧ fin y ≠ 0
    · simp only [if_pos hc]
      exact hkeep fin i y hi (List.mem_range.mp hy) h hc.1 hc.2
    · simp only [if_neg hc]; exact h

/-! ## Preconditions -/

theorem FitsTables.state_lt {g : Globals} (h : FitsTables g) {i : Nat}
    (hi : i < g.num_states.toNat) : i < MAX_STATES := by
  have h1 := h.1
  unfold MAX_STATES at *
  omega

theorem FitsTables.symbol_lt {g : Globals} (h : FitsTables g) {a : Nat}
    (ha : a < g.num_symbols.toNat) : a < MAX_ALPHABET_SIZE := by
  have h1 := h.2
  unfold MAX_ALPHABET_SIZE at *
  omega

theorem ClosureZeroed.in_range {g : Globals} (hz : ClosureZeroed g) (hfit : FitsTables g) :
    ∀ i k, i < g.num_states.toNat → k < g.num_states.toNat → g.epsilon_closure i k = 0 :=
  fun i k hi hk => hz i k (hfit.state_lt hi) (hfit.state_lt hk)

/-! ## Properties of the closure -/

/-- C2. Closure is exactly epsilon-reachability.  For an automaton that fits the tables,
on the zeroed closure table, `compute_epsilon_closure` returns (given more than
`num_states * num_states` passes) a table in which, for states
`i, k` below `num_states`, cell `(i, k)` is set exactly when `k` is reachable from `i`
by zero or more epsilon transitions through states below `num_states`.  The set cells
form a reflexive and transitive relation that contains the epsilon relation, is contained
in every such relation, and is closed under one more epsilon step.  Visiting the states
in any other order in the three loops produces the same set cells. -/
theorem closure_is_epsilon_reachability (g : Globals) (hfit : FitsTables g)
    (hzero : ClosureZeroed g) (fuel : Nat)
    (hfuel : g.num_states.toNat * g.num_states.toNat < fuel) :
    ∃ r, compute_epsilon_closure fuel g = some r ∧
      (∀ i k, i < g.num_states.toNat → k < g.num_states.toNat →
        (r.epsilon_closure i k ≠ 0 ↔ EpsReach g i k)) ∧
      (∀ i, i < g.num_states.toNat → r.epsilon_closure i i ≠ 0) ∧
      (∀ i j k, i < g.num_states.toNat → j < g.num_states.toNat → k < g.num_states.toNat →
        r.epsilon_closure i j ≠ 0 → r.epsilon_closure j k ≠ 0 → r.epsilon_closure i k ≠ 0) ∧
      (∀ i k, i < g.num_states.toNat → k < g.num_states.toNat →
        g.epsilon_transitions i k ≠ 0 → r.epsilon_closure i k ≠ 0) ∧
      (∀ R : Nat → Nat → Prop,
        (∀ i, i < g.num_states.toNat → R i i) →
        (∀ i j k, i < g.num_states.toNat → j < g.num_states.toNat → k < g.num_states.toNat →
          R i j → R j k → R i k) →
        (∀ i k, i < g.num_states.toNat → k < g.num_states.toNat →
          g.epsilon_transitions i k ≠ 0 → R i k) →
        ∀ i k, i < g.num_states.toNat → k < g.num_states.toNat →
          r.epsilon_closure i k ≠ 0 → R i k) ∧
      (∀ i j k, i < g.num_states.toNat → j < g.num_states.toNat → k < g.num_states.toNat →
        r.epsilon_closure i j ≠ 0 → g.epsilon_transitions j k ≠ 0 → r.epsilon_closure i k ≠ 0) ∧
      (∀ xs ys zs : List Nat, (∀ x, x ∈ xs ↔ x < g.num_states.toNat) →
        (∀ x, x ∈ ys ↔ x < g.num_states.toNat) → (∀ x, x ∈ zs ↔ x < g.num_states.toNat) →
        ∃ r', closureWith xs ys zs fuel g = some r' ∧
          ∀ i k, i < g.num_states.toNat → k < g.num_states.toNat →
            (r'.epsilon_closure i k ≠ 0 ↔ r.epsilon_closure i k ≠ 0)) := by
  have hz := hzero.in_range hfit
  obtain ⟨r, hr, hcl⟩ := compute_epsilon_closure_spec g fuel hfuel
  refine ⟨r, hr, hcl.iff_reach hz, hcl.refl, hcl.trans hz, ?_, ?_, hcl.step, ?_⟩
  · intro i k hi hk hik
    exact hcl.step i i k hi hi hk (hcl.refl i hi) hik
  · intro R hrefl htrans hstep i k hi hk hik
    have hreach := hcl.sound hz i k hi hk hik
    clear hik
    induction hreach with
    | refl => exact hrefl i hi
    | tail hab hbc ih =>
      exact htrans i _ _ hi hbc.1 hbc.2.1 (ih hbc.1) (hstep _ _ hbc.1 hbc.2.1 hbc.2.2)
  · intro xs ys zs hxs hys hzs
    obtain ⟨r', hr', hcl'⟩ := closureWith_spec g xs ys zs hxs hys hzs fuel hfuel
    refine ⟨r', hr', fun i k hi hk => ?_⟩
    rw [hcl'.iff_reach hz i k hi hk, hcl.iff_reach hz i k hi hk]

/-- C5. Reflexivity: for an automaton that fits the tables, `compute_epsilon_closure`
returns (given more than `num_states * num_states` passes) and in its result every state
`s` below `num_states` has `epsilon_closure[s][s]` set. -/
theorem closure_reflexive (g : Globals) (_hfit : FitsTables g) (fuel : Nat)
    (hfuel : g.num_states.toNat * g.num_states.toNat < fuel) :
    ∃ r, compute_epsilon_closure fuel g = some r ∧
      ∀ s, s < g.num_states.toNat → r.epsilon_closure s s ≠ 0 := by
  obtain ⟨r, hr, hcl⟩ := compute_epsilon_closure_spec g fuel hfuel
  exact ⟨r, hr, hcl.refl⟩

/-- C6. Transitivity: for an automaton that fits the tables, after
`compute_epsilon_closure` on the zeroed closure table, for all states `s, t, u` below
`num_states`, if `t` is in `closure(s)` and `u` is in `closure(t)` then `u` is in
`closure(s)`. -/
theorem closure_transitive (g : Globals) (hfit : FitsTables g) (hzero : ClosureZeroed g)
    (fuel : Nat) (hfuel : g.num_states.toNat * g.num_states.toNat < fuel) :
    ∃ r, compute_epsilon_closure fuel g = some r ∧
      ∀ s t u, s < g.num_states.toNat → t < g.num_states.toNat → u < g.num_states.toNat →
        r.epsilon_closure s t ≠ 0 → r.epsilon_closure t u ≠ 0 → r.epsilon_closure s u ≠ 0 := by
  obtain ⟨r, hr, hcl⟩ := compute_epsilon_closure_spec g fuel hfuel
  exact ⟨r, hr, hcl.trans (hzero.in_range hfit)⟩

theorem epsReach_of_no_out (g : Globals) (s k : Nat)
    (hno : ∀ k, k < g.num_states.toNat → g.epsilon_transitions s k = 0)
    (h : EpsReach g s k) : k = s := by
  induction h with
  | refl => rfl
  | tail _ hbc ih =>
    subst ih
    exact absurd (hno _ hbc.2.1) hbc.2.2

/-- C9. A state `s` below `num_states` with no outgoing epsilon transition has
`closure(s) = {s}`: for an automaton that fits the tables, after
`compute_epsilon_closure` on the zeroed closure table, `epsilon_closure[s][k]` (with `k`
below `num_states`) is set if and only if `k = s`. -/
theorem closure_of_state_without_epsilon (g : Globals) (hfit : FitsTables g)
    (hzero : ClosureZeroed g) (fuel : Nat)
    (hfuel : g.num_states.toNat * g.num_states.toNat < fuel)
    (s : Nat) (hs : s < g.num_states.toNat)
    (hno : ∀ k, k < g.num_states.toNat → g.epsilon_transitions s k = 0) :
    ∃ r, compute_epsilon_closure fuel g = some r ∧
      ∀ k, k < g.num_states.toNat → (r.epsilon_closure s k ≠ 0 ↔ k = s) := by
  obtain ⟨r, hr, hcl⟩ := compute_epsilon_closure_spec g fuel hfuel
  refine ⟨r, hr, fun k hk => ⟨fun h => ?_, fun h => ?_⟩⟩
  · exact epsReach_of_no_out g s k hno (hcl.sound (hzero.in_range hfit) s k hs hk h)
  · subst h; exact hcl.refl k hk

/-! ## Properties of the rewritten transitions and of the final states -/

theorem IsClosureOf.num_states_eq {g r : Globals} (h : IsClosureOf g r) :
    r.num_states = g.num_states := by rw [h.frame]

theorem IsClosureOf.num_symbols_eq {g r : Globals} (h : IsClosureOf g r) :
    r.num_symbols = g.num_symbols := by rw [h.frame]

theorem IsClosureOf.initial_state_eq {g r : Globals} (h : IsClosureOf g r) :
    r.initial_state = g.initial_state := by rw [h.frame]

theorem IsClosureOf.final_states_eq {g r : Globals} (h : IsClosureOf g r) :
    r.final_states = g.final_states := by rw [h.frame]

theorem IsClosureOf.symbol_transitions_eq {g r : Globals} (h : IsClosureOf g r) :
    r.symbol_transitions = g.symbol_transitions := by rw [h.frame]

theorem IsClosureOf.converted_transitions_eq {g r : Globals} (h : IsClosureOf g r) :
    r.converted_transitions = g.converted_transitions := by rw [h.frame]

/-- With enough passes allowed the whole conversion returns; its result is the
final-state update of the elimination run on the computed closure. -/
theorem convert_spec (g : Globals) (fuel : Nat)
    (hfuel : g.num_states.toNat * g.num_states.toNat < fuel) :
    ∃ c, compute_epsilon_closure fuel g = some c ∧ IsClosureOf g c ∧
      convert fuel g = some (update_final_states (eliminate_epsilon_transitions c)) := by
  obtain ⟨c, hc, hcl⟩ := compute_epsilon_closure_spec g fuel hfuel
  exact ⟨c, hc, hcl, by simp [convert, hc]⟩

/-- On a zeroed converted table the set cells are those the rewrite rule allows. -/
theorem eliminate_iff (g : Globals) (hfit : FitsTables g) (hzero : ConvertedZeroed g)
    (x a y : Nat) (hx : x < g.num_states.toNat) (ha : a < g.num_symbols.toNat)
    (hy : y < g.num_states.toNat) :
    (eliminate_epsilon_transitions g).converted_transitions x a y ≠ 0 ↔ Rewritten g x a y := by
  constructor
  · intro h
    by_contra hn
    rw [eliminate_frame g x a y hn] at h
    exact h (hzero x a y (hfit.state_lt hx) (hfit.symbol_lt ha) (hfit.state_lt hy))
  · intro h
    rw [eliminate_complete g x a y h]
    decide

/-- C3. Transition rewrite rule, as an exact characterisation.  For an automaton that
fits the tables, after `eliminate_epsilon_transitions` on the zeroed converted table
(and whatever the closure table holds), for `source`, `dest` below
`num_states` and `sym` below `num_symbols`, `converted_transitions[source][sym][dest]` is
set if and only if there are states `via` and `mid` below `num_states` with `via` in
`closure[source]`, a symbol transition `(via, sym, mid)`, and `dest` in `closure[mid]`
(the closure of the single-step destination `mid`). -/
theorem transition_rewrite_rule (g : Globals) (hfit : FitsTables g)
    (hzero : ConvertedZeroed g) (source sym dest : Nat) (hs : source < g.num_states.toNat)
    (ha : sym < g.num_symbols.toNat) (hd : dest < g.num_states.toNat) :
    (eliminate_epsilon_transitions g).converted_transitions source sym dest ≠ 0 ↔
      ∃ via mid, via < g.num_states.toNat ∧ mid < g.num_states.toNat ∧
        g.epsilon_closure source via ≠ 0 ∧ g.symbol_transitions via sym mid ≠ 0 ∧
        g.epsilon_closure mid dest ≠ 0 := by
  rw [eliminate_iff g hfit hzero source sym dest hs ha hd]
  constructor
  · intro h; exact h.2.2.2
  · intro h; exact ⟨hs, ha, hd, h⟩

/-- The final states after the conversion, in terms of the computed closure and the
original final states. -/
theorem convert_final_states (g : Globals) (hfit : FitsTables g)
    (hzero : ClosureZeroed g) (fuel : Nat)
    (hfuel : g.num_states.toNat * g.num_states.toNat < fuel) :
    ∃ c r, compute_epsilon_closure fuel g = some c ∧ convert fuel g = some r ∧
      r = update_final_states (eliminate_epsilon_transitions c) ∧
      (∀ i, i < g.num_states.toNat →
        (r.final_states i ≠ 0 ↔
          ∃ j, j < g.num_states.toNat ∧ c.epsilon_closure i j ≠ 0 ∧ g.final_states j ≠ 0)) ∧
      (∀ i, ¬ i < g.num_states.toNat → r.final_states i = g.final_states i) := by
  obtain ⟨c, hc, hcl, hconv⟩ := convert_spec g fuel hfuel
  have hz := hzero.in_range hfit
  have hn : (eliminate_epsilon_transitions c).num_states = g.num_states := hcl.num_states_eq
  have hf : (eliminate_epsilon_transitions c).final_states = g.final_states :=
    hcl.final_states_eq
  have hsound := update_final_states_sound (eliminate_epsilon_transitions c)
    (by rw [hn]; exact hcl.trans hz)
  refine ⟨c, _, hc, hconv, rfl, ?_, ?_⟩
  · intro i hi
    constructor
    · intro h
      rcases hsound i with h1 | ⟨_, _, j, hj, hij, hfj⟩
      · rw [h1, hf] at h
        exact ⟨i, hi, hcl.refl i hi, h⟩
      · rw [hn] at hj
        rw [hf] at hfj
        exact ⟨j, hj, hij, hfj⟩
    · rintro ⟨j, hj, hij, hfj⟩
      apply update_final_states_complete
      refine ⟨by rw [hn]; exact hi, j, by rw [hn]; exact hj, hij, by rw [hf]; exact hfj⟩
  · intro i hi
    rcases hsound i with h1 | ⟨_, h2, _⟩
    · rw [h1, hf]
    · rw [hn] at h2
      exact absurd h2 hi

/-- C4. Final-state extension rule.  For an automaton that fits the tables, with `c`
the state after `compute_epsilon_closure` (run on the zeroed closure table) and `r` the
state after the conversion, for every state
`i` below `num_states`, `final_states[i]` is set in `r` if and only if `closure[i]`
contains a state `j` marked final in the original automaton `g`; every other cell of
`final_states` keeps its original value. -/
theorem final_state_extension_rule (g : Globals) (hfit : FitsTables g)
    (hzero : ClosureZeroed g) (fuel : Nat)
    (hfuel : g.num_states.toNat * g.num_states.toNat < fuel) :
    ∃ c r, compute_epsilon_closure fuel g = some c ∧ convert fuel g = some r ∧
      r = update_final_states (eliminate_epsilon_transitions c) ∧
      (∀ i, i < g.num_states.toNat →
        (r.final_states i ≠ 0 ↔
          ∃ j, j < g.num_states.toNat ∧ c.epsilon_closure i j ≠ 0 ∧ g.final_states j ≠ 0)) ∧
      (∀ i, ¬ i < g.num_states.toNat → r.final_states i = g.final_states i) :=
  convert_final_states g hfit hzero fuel hfuel

/-- C7. Monotonic extension of the final states: for an automaton that fits the tables
the conversion returns (given more than `num_states * num_states` passes) and every state
marked final before it is still marked final after `update_final_states`. -/
theorem final_states_monotonic (g : Globals) (_hfit : FitsTables g) (fuel : Nat)
    (hfuel : g.num_states.toNat * g.num_states.toNat < fuel) :
    ∃ r, convert fuel g = some r ∧ ∀ i, g.final_states i ≠ 0 → r.final_states i ≠ 0 := by
  obtain ⟨c, _, hcl, hconv⟩ := convert_spec g fuel hfuel
  refine ⟨_, hconv, fun i hi => ?_⟩
  apply update_final_states_mono
  have hf : (eliminate_epsilon_transitions c).final_states = g.final_states :=
    hcl.final_states_eq
  rw [hf]
  exact hi

/-! ## States without epsilon transitions, and idempotence -/

/-- C10, as stated, fails: in `cexAutomaton` state `0` has no outgoing epsilon
transition, `symbol_transitions[0][0][2]` is `0`, and the conversion sets
`converted_transitions[0][0][2]` to `1`. -/
theorem transitions_unchanged_counterexample :
    FitsTables cexAutomaton ∧ ClosureZeroed cexAutomaton ∧ ConvertedZeroed cexAutomaton ∧
    (0 < cexAutomaton.num_states.toNat) ∧
    (∀ k, k < cexAutomaton.num_states.toNat → cexAutomaton.epsilon_transitions 0 k = 0) ∧
    cexAutomaton.symbol_transitions 0 0 2 = 0 ∧
    (compute_epsilon_closure 10 cexAutomaton).map
      (fun c => (eliminate_epsilon_transitions c).converted_transitions 0 0 2) = some 1 ∧
    (convert 10 cexAutomaton).map (fun r => r.converted_transitions 0 0 2) = some 1 :=
  ⟨by decide, fun _ _ _ _ => rfl, fun _ _ _ _ _ _ => rfl, by decide, by decide, by decide,
    by decide, by decide⟩

/-- C10, amended.  For an automaton that fits the tables, with the derived tables zeroed,
and a state `s` below `num_states` with no outgoing epsilon transition, after the
conversion `converted_transitions[s][a][d]` is set if and only if some `mid`
below `num_states` has `symbol_transitions[s][a][mid]` set and `d` in `closure(mid)`; in
particular every set `symbol_transitions[s][a][d]` is still set in
`converted_transitions`. -/
theorem transitions_of_state_without_epsilon (g : Globals) (hfit : FitsTables g)
    (hzc : ClosureZeroed g) (hzv : ConvertedZeroed g) (fuel : Nat)
    (hfuel : g.num_states.toNat * g.num_states.toNat < fuel)
    (s : Nat) (hs : s < g.num_states.toNat)
    (hno : ∀ k, k < g.num_states.toNat → g.epsilon_transitions s k = 0) :
    ∃ c r, compute_epsilon_closure fuel g = some c ∧ convert fuel g = some r ∧
      ∀ a d, a < g.num_symbols.toNat → d < g.num_states.toNat →
        (r.converted_transitions s a d ≠ 0 ↔
          ∃ mid, mid < g.num_states.toNat ∧ g.symbol_transitions s a mid ≠ 0 ∧
            c.epsilon_closure mid d ≠ 0) ∧
        (g.symbol_transitions s a d ≠ 0 → r.converted_transitions s a d ≠ 0) := by
  obtain ⟨c, hc, hcl, hconv⟩ := convert_spec g fuel hfuel
  have hz := hzc.in_range hfit
  have hfitc : FitsTables c := by
    unfold FitsTables; rw [hcl.num_states_eq, hcl.num_symbols_eq]; exact hfit
  have hzvc : ConvertedZeroed c := by
    unfold ConvertedZeroed; rw [hcl.converted_transitions_eq]; exact hzv
  have hn := hcl.num_states_eq
  have hm := hcl.num_symbols_eq
  have key : ∀ a d, a < g.num_symbols.toNat → d < g.num_states.toNat →
      ((eliminate_epsilon_transitions c).converted_transitions s a d ≠ 0 ↔
        ∃ mid, mid < g.num_states.toNat ∧ g.symbol_transitions s a mid ≠ 0 ∧
          c.epsilon_closure mid d ≠ 0) := by
    intro a d ha hd
    rw [eliminate_iff c hfitc hzvc s a d (by rw [hn]; exact hs) (by rw [hm]; exact ha)
      (by rw [hn]; exact hd)]
    unfold Rewritten
    rw [hn, hm, hcl.symbol_transitions_eq]
    constructor
    · rintro ⟨_, _, _, via, mid, hv, hmid, h1, h2, h3⟩
      have : via = s := epsReach_of_no_out g s via hno (hcl.sound hz s via hs hv h1)
      subst this
      exact ⟨mid, hmid, h2, h3⟩
    · rintro ⟨mid, hmid, h2, h3⟩
      exact ⟨hs, ha, hd, s, mid, hs, hmid, hcl.refl s hs, h2, h3⟩
  refine ⟨c, _, hc, hconv, fun a d ha hd => ⟨key a d ha hd, fun h => ?_⟩⟩
  exact (key a d ha hd).mpr ⟨d, hd, h, hcl.refl d hd⟩

/-- After the conversion every cell of the converted array is `0`, or is `1` at in-range
indices. -/
theorem converted_filled (g c : Globals) (hfit : FitsTables g) (hzv : ConvertedZeroed g)
    (hcl : IsClosureOf g c) (p a q : Nat) (hp : p < MAX_STATES) (ha : a < MAX_ALPHABET_SIZE)
    (hq : q < MAX_STATES) :
    (eliminate_epsilon_transitions c).converted_transitions p a q = 0 ∨
      ((eliminate_epsilon_transitions c).converted_transitions p a q = 1 ∧
        p < g.num_states.toNat ∧ a < g.num_symbols.toNat ∧ q < g.num_states.toNat) := by
  have _ := hfit
  by_cases hr : Rewritten c p a q
  · right
    refine ⟨eliminate_complete c p a q hr, ?_, ?_, ?_⟩
    · rw [← hcl.num_states_eq]; exact hr.1
    · rw [← hcl.num_symbols_eq]; exact hr.2.1
    · rw [← hcl.num_states_eq]; exact hr.2.2.1
  · left
    rw [eliminate_frame c p a q hr, hcl.converted_transitions_eq]
    exact hzv p a q hp ha hq

/-- The conversion of an automaton without epsilon transitions returns the symbol
transitions as converted transitions and leaves the final states as they are. -/
theorem convert_without_epsilon (g : Globals) (hfit : FitsTables g) (hzc : ClosureZeroed g)
    (hzv : ConvertedZeroed g) (hfin : FinalTableFilled g) (fuel : Nat)
    (hfuel : g.num_states.toNat * g.num_states.toNat < fuel)
    (hempty : ∀ i k, i < g.num_states.toNat → k < g.num_states.toNat →
      g.epsilon_transitions i k = 0)
    (hsym : SymbolTableFilled g) :
    ∃ r, convert fuel g = some r ∧
      (∀ p a q, p < MAX_STATES → a < MAX_ALPHABET_SIZE → q < MAX_STATES →
        r.converted_transitions p a q = g.symbol_transitions p a q) ∧
      (∀ i, r.final_states i = g.final_states i) := by
  obtain ⟨c, hc, hcl, hconv⟩ := convert_spec g fuel hfuel
  have hz := hzc.in_range hfit
  have hn := hcl.num_states_eq
  have hid : ∀ i k, i < g.num_states.toNat → k < g.num_states.toNat →
      c.epsilon_closure i k ≠ 0 → k = i := fun i k hi hk h =>
    epsReach_of_no_out g i k (fun k hk => hempty i k hi hk) (hcl.sound hz i k hi hk h)
  refine ⟨_, hconv, ?_, ?_⟩
  · intro p a q hp ha hq
    show (eliminate_epsilon_transitions c).converted_transitions p a q = _
    by_cases hr : Rewritten c p a q
    · rw [eliminate_complete c p a q hr]
      obtain ⟨hp', _, hq', via, mid, hv, hmid, h1, h2, h3⟩ := hr
      rw [hn] at hp' hq' hv hmid
      have e1 := hid p via hp' hv h1
      have e2 := hid mid q hmid hq' h3
      subst e1 e2
      rw [hcl.symbol_transitions_eq] at h2
      rcases hsym via a q hp ha hq with h0 | ⟨h1, _⟩
      · exact absurd h0 h2
      · exact h1.symm
    · rw [eliminate_frame c p a q hr, hcl.converted_transitions_eq, hzv p a q hp ha hq]
      rcases hsym p a q hp ha hq with h0 | ⟨h1, hp', ha', hq'⟩
      · exact h0.symm
      · exfalso
        apply hr
        refine ⟨by rw [hn]; exact hp', by rw [hcl.num_symbols_eq]; exact ha',
          by rw [hn]; exact hq', p, q, by rw [hn]; exact hp', by rw [hn]; exact hq',
          hcl.refl p hp', ?_, hcl.refl q hq'⟩
        rw [hcl.symbol_transitions_eq, h1]
        decide
  · intro i
    have hf : (eliminate_epsilon_transitions c).final_states = g.final_states :=
      hcl.final_states_eq
    have hne : (eliminate_epsilon_transitions c).num_states = g.num_states := hn
    rcases update_final_states_sound (eliminate_epsilon_transitions c)
      (by rw [hne]; exact hcl.trans hz) i with h1 | ⟨h1, hi, j, hj, hij, hfj⟩
    · rw [h1, hf]
    · rw [hne] at hi hj
      have e := hid i j hi hj hij
      subst e
      rw [hf] at hfj
      rw [h1]
      rcases hfin j (hfit.state_lt hi) with h0 | h1'
      · exact absurd h0 hfj
      · exact h1'.symm

/-- C8. Idempotence.  (1) For an automaton whose tables are filled at in-range indices
and whose epsilon relation is empty, the conversion returns converted transitions equal,
cell by cell, to the input symbol transitions, and final states equal to the input final
states.  (2) For any automaton, reading the output of the conversion back as a new input
with an empty epsilon relation (`reload`) and converting again yields the same converted
transitions and the same final states. -/
theorem conversion_idempotent (g : Globals) (hfit : FitsTables g) (hzc : ClosureZeroed g)
    (hzv : ConvertedZeroed g) (hfin : FinalTableFilled g) (fuel : Nat)
    (hfuel : g.num_states.toNat * g.num_states.toNat < fuel) :
    ((∀ i k, i < g.num_states.toNat → k < g.num_states.toNat →
        g.epsilon_transitions i k = 0) → SymbolTableFilled g →
      ∃ r, convert fuel g = some r ∧
        (∀ p a q, p < MAX_STATES → a < MAX_ALPHABET_SIZE → q < MAX_STATES →
          r.converted_transitions p a q = g.symbol_transitions p a q) ∧
        (∀ i, r.final_states i = g.final_states i)) ∧
    (∃ r0, convert fuel g = some r0 ∧
      ∃ r1, convert fuel (reload r0) = some r1 ∧
        (∀ p a q, p < MAX_STATES → a < MAX_ALPHABET_SIZE → q < MAX_STATES →
          r1.converted_transitions p a q = r0.converted_transitions p a q) ∧
        (∀ i, r1.final_states i = r0.final_states i)) := by
  refine ⟨convert_without_epsilon g hfit hzc hzv hfin fuel hfuel, ?_⟩
  obtain ⟨c, _, hcl, hconv⟩ := convert_spec g fuel hfuel
  have hz := hzc.in_range hfit
  refine ⟨_, hconv, ?_⟩
  have hn : (reload (update_final_states (eliminate_epsilon_transitions c))).num_states =
      g.num_states := hcl.num_states_eq
  have hm : (reload (update_final_states (eliminate_epsilon_transitions c))).num_symbols =
      g.num_symbols := hcl.num_symbols_eq
  have hfit' : FitsTables (reload (update_final_states (eliminate_epsilon_transitions c))) := by
    unfold FitsTables; rw [hn, hm]; exact hfit
  have hfe : (eliminate_epsilon_transitions c).final_states = g.final_states :=
    hcl.final_states_eq
  have hne : (eliminate_epsilon_transitions c).num_states = g.num_states := hcl.num_states_eq
  have hfin' : FinalTableFilled
      (reload (update_final_states (eliminate_epsilon_transitions c))) := by
    intro i hi
    show (update_final_states (eliminate_epsilon_transitions c)).final_states i = 0 ∨
      (update_final_states (eliminate_epsilon_transitions c)).final_states i = 1
    rcases update_final_states_sound (eliminate_epsilon_transitions c)
      (by rw [hne]; exact hcl.trans hz) i with h1 | ⟨h1, _⟩
    · rw [h1, hfe]; exact hfin i hi
    · right; exact h1
  have hsym' : SymbolTableFilled
      (reload (update_final_states (eliminate_epsilon_transitions c))) := by
    intro p a q hp ha hq
    rw [hn, hm]
    exact converted_filled g c hfit hzv hcl p a q hp ha hq
  exact convert_without_epsilon _ hfit' (fun _ _ _ _ => rfl) (fun _ _ _ _ _ _ => rfl) hfin' fuel
    (by rw [hn]; exact hfuel) (fun _ _ _ _ => rfl) hsym'

/-! ## Language equivalence -/

theorem epsAccepts_of_reach (g : Globals) (p q : Nat) (w : List Nat) (h : EpsReach g p q)
    (hq : EpsAccepts g q w) : EpsAccepts g p w := by
  induction h with
  | refl => exact hq
  | tail _ hbc ih => exact ih (EpsAccepts.eps _ _ w hbc.1 hbc.2.1 hbc.2.2 hq)

/-- Acceptance is preserved in both directions by any tables `r` whose converted
transitions follow the rewrite rule over epsilon-reachability and whose final states are
the states that reach an original final state by epsilon transitions. -/
theorem accepts_iff (g r : Globals) (hn : r.num_states = g.num_states)
    (hm : r.num_symbols = g.num_symbols)
    (hconv : ∀ x a y, x < g.num_states.toNat → a < g.num_symbols.toNat →
      y < g.num_states.toNat →
      (r.converted_transitions x a y ≠ 0 ↔
        ∃ via mid, via < g.num_states.toNat ∧ mid < g.num_states.toNat ∧ EpsReach g x via ∧
          g.symbol_transitions via a mid ≠ 0 ∧ EpsReach g mid y))
    (hfin : ∀ i, i < g.num_states.toNat →
      (r.final_states i ≠ 0 ↔
        ∃ j, j < g.num_states.toNat ∧ EpsReach g i j ∧ g.final_states j ≠ 0))
    (p : Nat) (w : List Nat) : EpsAccepts g p w ↔ FreeAccepts r p w := by
  constructor
  · intro h
    induction h with
    | final q hq hf =>
      exact FreeAccepts.final q (by rw [hn]; exact hq)
        ((hfin q hq).mpr ⟨q, hq, Relation.ReflTransGen.refl, hf⟩)
    | eps p q w hp hq hpq _ ih =>
      have hstep : EpsReach g p q := Relation.ReflTransGen.single ⟨hp, hq, hpq⟩
      cases ih with
      | final _ _ hf =>
        obtain ⟨j, hj, hqj, hfj⟩ := (hfin q hq).mp hf
        exact FreeAccepts.final p (by rw [hn]; exact hp)
          ((hfin p hp).mpr ⟨j, hj, Relation.ReflTransGen.trans hstep hqj, hfj⟩)
      | sym _ a q' w' _ ha hq' hc hrest =>
        rw [hn] at hq'
        rw [hm] at ha
        obtain ⟨via, mid, hv, hmid, h1, h2, h3⟩ := (hconv q a q' hq ha hq').mp hc
        exact FreeAccepts.sym p a q' w' (by rw [hn]; exact hp) (by rw [hm]; exact ha)
          (by rw [hn]; exact hq')
          ((hconv p a q' hp ha hq').mpr
            ⟨via, mid, hv, hmid, Relation.ReflTransGen.trans hstep h1, h2, h3⟩) hrest
    | sym p a q w hp ha hq hpq _ ih =>
      exact FreeAccepts.sym p a q w (by rw [hn]; exact hp) (by rw [hm]; exact ha)
        (by rw [hn]; exact hq)
        ((hconv p a q hp ha hq).mpr
          ⟨p, q, hp, hq, Relation.ReflTransGen.refl, hpq, Relation.ReflTransGen.refl⟩) ih
  · intro h
    induction h with
    | final q hq hf =>
      rw [hn] at hq
      obtain ⟨j, hj, hqj, hfj⟩ := (hfin q hq).mp hf
      exact epsAccepts_of_reach g q j [] hqj (EpsAccepts.final j hj hfj)
    | sym p a q w hp ha hq hc _ ih =>
      rw [hn] at hp hq
      rw [hm] at ha
      obtain ⟨via, mid, hv, hmid, h1, h2, h3⟩ := (hconv p a q hp ha hq).mp hc
      exact epsAccepts_of_reach g p via (a :: w) h1
        (EpsAccepts.sym via a mid w hv ha hmid h2 (epsAccepts_of_reach g mid q w h3 ih))

/-- C1. Language equivalence.  For every automaton that fits the tables, with the
derived tables zeroed, the conversion (`compute_epsilon_closure`,
`eliminate_epsilon_transitions`, `update_final_states`) returns, and for every word `w`
the source epsilon-NFA accepts `w` (with epsilon moves, original final states) if and only
if the produced automaton accepts `w` (converted transitions only, updated final states).
The empty word is included. -/
theorem language_equivalence (g : Globals) (hfit : FitsTables g) (hzc : ClosureZeroed g)
    (hzv : ConvertedZeroed g) (fuel : Nat)
    (hfuel : g.num_states.toNat * g.num_states.toNat < fuel) :
    ∃ r, convert fuel g = some r ∧
      ∀ w : List Nat, AcceptsWithEpsilon g w ↔ AcceptsEpsilonFree r w := by
  obtain ⟨c, r, hc, hr, hreq, hfinal, _⟩ := convert_final_states g hfit hzc fuel hfuel
  obtain ⟨c', hc', hcl, _⟩ := convert_spec g fuel hfuel
  have hcc : c' = c := by rw [hc] at hc'; exact (Option.some.inj hc').symm
  subst hcc
  subst hreq
  have hz := hzc.in_range hfit
  have hn := hcl.num_states_eq
  have hm := hcl.num_symbols_eq
  have hfitc : FitsTables c' := by
    unfold FitsTables; rw [hn, hm]; exact hfit
  have hzvc : ConvertedZeroed c' := by
    unfold ConvertedZeroed; rw [hcl.converted_transitions_eq]; exact hzv
  refine ⟨_, hr, fun w => ?_⟩
  have hinit : (update_final_states (eliminate_epsilon_transitions c')).initial_state =
      g.initial_state := hcl.initial_state_eq
  unfold AcceptsWithEpsilon AcceptsEpsilonFree
  rw [hinit]
  apply and_congr_right
  intro _
  apply accepts_iff g (update_final_states (eliminate_epsilon_transitions c')) hn hm
  · intro x a y hx ha hy
    show (eliminate_epsilon_transitions c').converted_transitions x a y ≠ 0 ↔ _
    rw [eliminate_iff c' hfitc hzvc x a y (by rw [hn]; exact hx) (by rw [hm]; exact ha)
      (by rw [hn]; exact hy)]
    unfold Rewritten
    rw [hn, hm, hcl.symbol_transitions_eq]
    constructor
    · rintro ⟨_, _, _, via, mid, hv, hmid, h1, h2, h3⟩
      exact ⟨via, mid, hv, hmid, hcl.sound hz x via hx hv h1, h2, hcl.sound hz mid y hmid hy h3⟩
    · rintro ⟨via, mid, hv, hmid, h1, h2, h3⟩
      exact ⟨hx, ha, hy, via, mid, hv, hmid, hcl.complete x via hx h1, h2,
        hcl.complete mid y hmid h3⟩
  · intro i hi
    rw [hfinal i hi]
    constructor
    · rintro ⟨j, hj, h1, h2⟩
      exact ⟨j, hj, hcl.sound hz i j hi hj h1, h2⟩
    · rintro ⟨j, hj, h1, h2⟩
      exact ⟨j, hj, hcl.complete i j hi h1, h2⟩

/-! ## The initial state of the derived tables -/

theorem set2_zero_eq_zero (t : Table2) (i k x y : Nat) (h : t x y = 0) :
    set2 t i k 0 x y = 0 := by
  simp only [set2]
  split
  · rfl
  · exact h

theorem set3_zero_eq_zero (t : Table3) (i a k x b y : Nat) (h : t x b y = 0) :
    set3 t i a k 0 x b y = 0 := by
  simp only [set3]
  split
  · rfl
  · exact h

theorem initialize_data_structures_eq (g : Globals) :
    initialize_data_structures g =
      (List.range MAX_STATES).foldl (fun g i =>
        initEpsRow i (initSymRow i { g with final_states := set1 g.final_states i 0 })) g :=
  rfl

theorem initSymRow_closure (i : Nat) (g : Globals) :
    (initSymRow i g).epsilon_closure = g.epsilon_closure := by
  unfold initSymRow
  apply foldl_inv (fun g' : Globals => g'.epsilon_closure = g.epsilon_closure) _ _ _ rfl
  intro g1 j _ h
  exact foldl_inv (fun g' : Globals => g'.epsilon_closure = g.epsilon_closure) _ _ _ h
    (fun g2 k _ h => h)

theorem initEpsRow_converted (i : Nat) (g : Globals) :
    (initEpsRow i g).converted_transitions = g.converted_transitions := by
  unfold initEpsRow
  exact foldl_inv (fun g' : Globals => g'.converted_transitions = g.converted_transitions)
    _ _ _ rfl (fun g1 j _ h => h)

theorem initEpsRow_keeps (i x y : Nat) (g : Globals) (h : g.epsilon_closure x y = 0) :
    (initEpsRow i g).epsilon_closure x y = 0 := by
  unfold initEpsRow
  exact foldl_inv (fun g' : Globals => g'.epsilon_closure x y = 0) _ _ _ h
    (fun g1 j _ h => set2_zero_eq_zero _ _ _ _ _ h)

theorem initEpsRow_zeroes (i k : Nat) (hk : k < MAX_STATES) (g : Globals) :
    (initEpsRow i g).epsilon_closure i k = 0 := by
  unfold initEpsRow
  apply foldl_reach (fun _ => True) (fun g' : Globals => g'.epsilon_closure i k = 0) _ _ _
    trivial (fun _ _ _ _ => trivial) _ k (List.mem_range.mpr hk)
  · intro g1 _
    simp [set2]
  · intro g1 j _ _ h
    exact set2_zero_eq_zero _ _ _ _ _ h

theorem initSymRow_keeps (i x a y : Nat) (g : Globals) (h : g.converted_transitions x a y = 0) :
    (initSymRow i g).converted_transitions x a y = 0 := by
  unfold initSymRow
  apply foldl_inv (fun g' : Globals => g'.converted_transitions x a y = 0) _ _ _ h
  intro g1 j _ h
  exact foldl_inv (fun g' : Globals => g'.converted_transitions x a y = 0) _ _ _ h
    (fun g2 k _ h => set3_zero_eq_zero _ _ _ _ _ _ _ h)

theorem initSymRow_zeroes (i a k : Nat) (ha : a < MAX_ALPHABET_SIZE) (hk : k < MAX_STATES)
    (g : Globals) : (initSymRow i g).converted_transitions i a k = 0 := by
  unfold initSymRow
  apply foldl_reach (fun _ => True) (fun g' : Globals => g'.converted_transitions i a k = 0)
    _ _ _ trivial (fun _ _ _ _ => trivial) _ a (List.mem_range.mpr ha)
  · intro g1 _
    apply foldl_reach (fun _ => True) (fun g' : Globals => g'.converted_transitions i a k = 0)
      _ _ _ trivial (fun _ _ _ _ => trivial) _ k (List.mem_range.mpr hk)
    · intro g2 _
      simp [set3]
    · intro g2 k' _ _ h
      exact set3_zero_eq_zero _ _ _ _ _ _ _ h
  · intro g1 j _ _ h
    exact foldl_inv (fun g' : Globals => g'.converted_transitions i a k = 0) _ _ _ h
      (fun g2 k' _ h => set3_zero_eq_zero _ _ _ _ _ _ _ h)

/-- The preconditions `ClosureZeroed` and `ConvertedZeroed` are what
`initialize_data_structures` establishes, whatever the tables held before. -/
theorem initialize_data_structures_zeroes (g : Globals) :
    ClosureZeroed (initialize_data_structures g) ∧
      ConvertedZeroed (initialize_data_structures g) := by
  constructor
  · intro i k hi hk
    rw [initialize_data_structures_eq]
    apply foldl_reach (fun _ => True) (fun g' : Globals => g'.epsilon_closure i k = 0) _ _ _
      trivial (fun _ _ _ _ => trivial) _ i (List.mem_range.mpr hi)
    · intro g1 _
      exact initEpsRow_zeroes i k hk _
    · intro g1 i' _ _ h
      apply initEpsRow_keeps
      rw [initSymRow_closure]
      exact h
  · intro i a k hi ha hk
    rw [initialize_data_structures_eq]
    apply foldl_reach (fun _ => True) (fun g' : Globals => g'.converted_transitions i a k = 0)
      _ _ _ trivial (fun _ _ _ _ => trivial) _ i (List.mem_range.mpr hi)
    · intro g1 _
      rw [initEpsRow_converted]
      exact initSymRow_zeroes i a k ha hk _
    · intro g1 i' _ _ h
      rw [initEpsRow_converted]
      exact initSymRow_keeps i' i a k _ h

/-! ## Instances on concrete automata -/

theorem sampleNoEpsilon_symbolTable : SymbolTableFilled sampleNoEpsilon := by
  intro p a q _ _ _
  by_cases h : a = 0 ∧ q = p + 1 ∧ q < 3
  · right
    refine ⟨by simp only [sampleNoEpsilon, if_pos h], ?_, ?_, ?_⟩
    · show p < 3
      omega
    · show a < 1
      omega
    · exact h.2.2
  · left
    simp only [sampleNoEpsilon, if_neg h]

theorem sampleNoEpsilon_finalTable : FinalTableFilled sampleNoEpsilon := by
  intro i _
  by_cases h : i = 2
  · right; simp [sampleNoEpsilon, h]
  · left; simp [sampleNoEpsilon, h]

/-- The source automaton `sampleAutomaton` accepts the one-letter word `a`. -/
theorem sampleAutomaton_accepts : AcceptsWithEpsilon sampleAutomaton [0] :=
  ⟨by decide,
    EpsAccepts.eps 0 1 [0] (by decide) (by decide) (by decide)
      (EpsAccepts.sym 1 0 2 [] (by decide) (by decide) (by decide) (by decide)
        (EpsAccepts.final 2 (by decide) (by decide)))⟩

/-- The source automaton `sampleAutomaton` rejects the empty word. -/
theorem sampleAutomaton_rejects : ¬ AcceptsWithEpsilon sampleAutomaton [] := by
  have key : ∀ p w, EpsAccepts sampleAutomaton p w → w = [] → p = 2 := by
    intro p w h
    induction h with
    | final q _ hf =>
      intro _
      by_contra hq
      exact hf (by simp [sampleAutomaton, hq])
    | eps p q w _ _ hpq _ ih =>
      intro hw
      have hq := ih hw
      subst hq
      exfalso
      apply hpq
      simp [sampleAutomaton]
    | sym p a q w _ _ _ _ _ _ =>
      intro hw
      exact absurd hw (by simp)
  intro h
  have := key _ _ h.2 rfl
  exact absurd this (by decide)

/-- Instance of C1 on `sampleAutomaton`. -/
theorem language_equivalence_witness :
    FitsTables sampleAutomaton ∧ ClosureZeroed sampleAutomaton ∧
    ConvertedZeroed sampleAutomaton ∧
    sampleAutomaton.num_states.toNat * sampleAutomaton.num_states.toNat < 10 ∧
    ∃ r, convert 10 sampleAutomaton = some r ∧
      ∀ w : List Nat, AcceptsWithEpsilon sampleAutomaton w ↔ AcceptsEpsilonFree r w :=
  ⟨by decide, fun _ _ _ _ => rfl, fun _ _ _ _ _ _ => rfl, by decide,
    language_equivalence sampleAutomaton (by decide) (fun _ _ _ _ => rfl)
      (fun _ _ _ _ _ _ => rfl) 10 (by decide)⟩

/-- Instance of C2 on `sampleAutomaton`: the computed closure is epsilon-reachability. -/
theorem closure_is_epsilon_reachability_witness :
    FitsTables sampleAutomaton ∧ ClosureZeroed sampleAutomaton ∧
    sampleAutomaton.num_states.toNat * sampleAutomaton.num_states.toNat < 10 ∧
    ∃ r, compute_epsilon_closure 10 sampleAutomaton = some r ∧
      ∀ i k, i < sampleAutomaton.num_states.toNat → k < sampleAutomaton.num_states.toNat →
        (r.epsilon_closure i k ≠ 0 ↔ EpsReach sampleAutomaton i k) :=
  ⟨by decide, fun _ _ _ _ => rfl, by decide,
    (closure_is_epsilon_reachability sampleAutomaton (by decide) (fun _ _ _ _ => rfl) 10
      (by decide)).imp (fun _ h => ⟨h.1, h.2.1⟩)⟩

/-- Instance of C3 on `sampleWithClosure`, at source `0`, symbol `0`, destination `2`. -/
theorem transition_rewrite_rule_witness :
    FitsTables sampleWithClosure ∧ ConvertedZeroed sampleWithClosure ∧
    0 < sampleWithClosure.num_states.toNat ∧ 0 < sampleWithClosure.num_symbols.toNat ∧
    2 < sampleWithClosure.num_states.toNat ∧
    ((eliminate_epsilon_transitions sampleWithClosure).converted_transitions 0 0 2 ≠ 0 ↔
      ∃ via mid, via < sampleWithClosure.num_states.toNat ∧
        mid < sampleWithClosure.num_states.toNat ∧
        sampleWithClosure.epsilon_closure 0 via ≠ 0 ∧
        sampleWithClosure.symbol_transitions via 0 mid ≠ 0 ∧
        sampleWithClosure.epsilon_closure mid 2 ≠ 0) :=
  ⟨by decide, fun _ _ _ _ _ _ => rfl, by decide, by decide, by decide,
    transition_rewrite_rule sampleWithClosure (by decide) (fun _ _ _ _ _ _ => rfl) 0 0 2
      (by decide) (by decide) (by decide)⟩

/-- Instance of C4 on `sampleAutomaton`. -/
theorem final_state_extension_rule_witness :
    FitsTables sampleAutomaton ∧ ClosureZeroed sampleAutomaton ∧
    sampleAutomaton.num_states.toNat * sampleAutomaton.num_states.toNat < 10 ∧
    ∃ c r, compute_epsilon_closure 10 sampleAutomaton = some c ∧
      convert 10 sampleAutomaton = some r ∧
      r = update_final_states (eliminate_epsilon_transitions c) ∧
      (∀ i, i < sampleAutomaton.num_states.toNat →
        (r.final_states i ≠ 0 ↔
          ∃ j, j < sampleAutomaton.num_states.toNat ∧ c.epsilon_closure i j ≠ 0 ∧
            sampleAutomaton.final_states j ≠ 0)) ∧
      (∀ i, ¬ i < sampleAutomaton.num_states.toNat →
        r.final_states i = sampleAutomaton.final_states i) :=
  ⟨by decide, fun _ _ _ _ => rfl, by decide,
    final_state_extension_rule sampleAutomaton (by decide) (fun _ _ _ _ => rfl) 10 (by decide)⟩

/-- Instance of C5 on `sampleAutomaton`. -/
theorem closure_reflexive_witness :
    FitsTables sampleAutomaton ∧
    sampleAutomaton.num_states.toNat * sampleAutomaton.num_states.toNat < 10 ∧
    ∃ r, compute_epsilon_closure 10 sampleAutomaton = some r ∧
      ∀ s, s < sampleAutomaton.num_states.toNat → r.epsilon_closure s s ≠ 0 :=
  ⟨by decide, by decide, closure_reflexive sampleAutomaton (by decide) 10 (by decide)⟩

/-- Instance of C6 on `sampleAutomaton`. -/
theorem closure_transitive_witness :
    FitsTables sampleAutomaton ∧ ClosureZeroed sampleAutomaton ∧
    sampleAutomaton.num_states.toNat * sampleAutomaton.num_states.toNat < 10 ∧
    ∃ r, compute_epsilon_closure 10 sampleAutomaton = some r ∧
      ∀ s t u, s < sampleAutomaton.num_states.toNat → t < sampleAutomaton.num_states.toNat →
        u < sampleAutomaton.num_states.toNat →
        r.epsilon_closure s t ≠ 0 → r.epsilon_closure t u ≠ 0 → r.epsilon_closure s u ≠ 0 :=
  ⟨by decide, fun _ _ _ _ => rfl, by decide,
    closure_transitive sampleAutomaton (by decide) (fun _ _ _ _ => rfl) 10 (by decide)⟩

/-- Instance of C7 on `sampleAutomaton`. -/
theorem final_states_monotonic_witness :
    FitsTables sampleAutomaton ∧
    sampleAutomaton.num_states.toNat * sampleAutomaton.num_states.toNat < 10 ∧
    ∃ r, convert 10 sampleAutomaton = some r ∧
      ∀ i, sampleAutomaton.final_states i ≠ 0 → r.final_states i ≠ 0 :=
  ⟨by decide, by decide, final_states_monotonic sampleAutomaton (by decide) 10 (by decide)⟩

/-- Instance of C8: part (1) on `sampleNoEpsilon`, which has no epsilon transition. -/
theorem conversion_idempotent_witness :
    FitsTables sampleNoEpsilon ∧ ClosureZeroed sampleNoEpsilon ∧
    ConvertedZeroed sampleNoEpsilon ∧ FinalTableFilled sampleNoEpsilon ∧
    sampleNoEpsilon.num_states.toNat * sampleNoEpsilon.num_states.toNat < 10 ∧
    (∀ i k, i < sampleNoEpsilon.num_states.toNat → k < sampleNoEpsilon.num_states.toNat →
      sampleNoEpsilon.epsilon_transitions i k = 0) ∧
    SymbolTableFilled sampleNoEpsilon ∧
    (∃ r, convert 10 sampleNoEpsilon = some r ∧
      (∀ p a q, p < MAX_STATES → a < MAX_ALPHABET_SIZE → q < MAX_STATES →
        r.converted_transitions p a q = sampleNoEpsilon.symbol_transitions p a q) ∧
      (∀ i, r.final_states i = sampleNoEpsilon.final_states i)) ∧
    (∃ r0, convert 10 sampleNoEpsilon = some r0 ∧
      ∃ r1, convert 10 (reload r0) = some r1 ∧
        (∀ p a q, p < MAX_STATES → a < MAX_ALPHABET_SIZE → q < MAX_STATES →
          r1.converted_transitions p a q = r0.converted_transitions p a q) ∧
        (∀ i, r1.final_states i = r0.final_states i)) :=
  ⟨by decide, fun _ _ _ _ => rfl, fun _ _ _ _ _ _ => rfl, sampleNoEpsilon_finalTable, by decide,
    fun _ _ _ _ => rfl, sampleNoEpsilon_symbolTable,
    (conversion_idempotent sampleNoEpsilon (by decide) (fun _ _ _ _ => rfl)
      (fun _ _ _ _ _ _ => rfl) sampleNoEpsilon_finalTable 10 (by decide)).1
      (fun _ _ _ _ => rfl) sampleNoEpsilon_symbolTable,
    (conversion_idempotent sampleNoEpsilon (by decide) (fun _ _ _ _ => rfl)
      (fun _ _ _ _ _ _ => rfl) sampleNoEpsilon_finalTable 10 (by decide)).2⟩

/-- Instance of C9 on `sampleAutomaton`, at state `1`, which has no outgoing epsilon
transition. -/
theorem closure_of_state_without_epsilon_witness :
    FitsTables sampleAutomaton ∧ ClosureZeroed sampleAutomaton ∧
    sampleAutomaton.num_states.toNat * sampleAutomaton.num_states.toNat < 10 ∧
    1 < sampleAutomaton.num_states.toNat ∧
    (∀ k, k < sampleAutomaton.num_states.toNat → sampleAutomaton.epsilon_transitions 1 k = 0) ∧
    ∃ r, compute_epsilon_closure 10 sampleAutomaton = some r ∧
      ∀ k, k < sampleAutomaton.num_states.toNat → (r.epsilon_closure 1 k ≠ 0 ↔ k = 1) :=
  ⟨by decide, fun _ _ _ _ => rfl, by decide, by decide, by decide,
    closure_of_state_without_epsilon sampleAutomaton (by decide) (fun _ _ _ _ => rfl) 10
      (by decide) 1 (by decide) (by decide)⟩

/-- Instance of the amended C10 on `cexAutomaton`, at state `0`, which has no outgoing
epsilon transition. -/
theorem transitions_of_state_without_epsilon_witness :
    FitsTables cexAutomaton ∧ ClosureZeroed cexAutomaton ∧ ConvertedZeroed cexAutomaton ∧
    cexAutomaton.num_states.toNat * cexAutomaton.num_states.toNat < 10 ∧
    0 < cexAutomaton.num_states.toNat ∧
    (∀ k, k < cexAutomaton.num_states.toNat → cexAutomaton.epsilon_transitions 0 k = 0) ∧
    ∃ c r, compute_epsilon_closure 10 cexAutomaton = some c ∧
      convert 10 cexAutomaton = some r ∧
      ∀ a d, a < cexAutomaton.num_symbols.toNat → d < cexAutomaton.num_states.toNat →
        (r.converted_transitions 0 a d ≠ 0 ↔
          ∃ mid, mid < cexAutomaton.num_states.toNat ∧
            cexAutomaton.symbol_transitions 0 a mid ≠ 0 ∧ c.epsilon_closure mid d ≠ 0) ∧
        (cexAutomaton.symbol_transitions 0 a d ≠ 0 → r.converted_transitions 0 a d ≠ 0) :=
  ⟨by decide, fun _ _ _ _ => rfl, fun _ _ _ _ _ _ => rfl, by decide, by decide, by decide,
    transitions_of_state_without_epsilon cexAutomaton (by decide) (fun _ _ _ _ => rfl)
      (fun _ _ _ _ _ _ => rfl) 10 (by decide) 0 (by decide) (by decide)⟩

/-! ## The pass bound does not influence the result -/

/-- Two runs of `doWhile` that both return, under any two bounds, return the same state. -/
theorem doWhile_fuel_irrelevant {σ : Type} (body : σ → σ) (cond : σ → Bool) :
    ∀ (f1 f2 : Nat) (s r1 r2 : σ), doWhile body cond f1 s = some r1 →
      doWhile body cond f2 s = some r2 → r1 = r2 := by
  intro f1
  induction f1 with
  | zero => intro f2 s r1 r2 h1; simp [doWhile] at h1
  | succ f1 ih =>
    intro f2 s r1 r2 h1 h2
    cases f2 with
    | zero => simp [doWhile] at h2
    | succ f2 =>
      simp only [doWhile] at h1 h2
      by_cases hc : cond (body s) = true
      · simp only [hc, if_true] at h1 h2
        exact ih f2 (body s) r1 r2 h1 h2
      · simp only [hc] at h1 h2
        simp only [Bool.false_eq_true, if_false, Option.some.injEq] at h1 h2
        rw [← h1, ← h2]

/-- The state returned by `compute_epsilon_closure` does not depend on the bound on the
passes, as long as the bound suffices. -/
theorem compute_epsilon_closure_fuel_irrelevant (g : Globals) (f1 f2 : Nat) (r1 r2 : Globals)
    (h1 : compute_epsilon_closure f1 g = some r1) (h2 : compute_epsilon_closure f2 g = some r2) :
    r1 = r2 := by
  unfold compute_epsilon_closure at h1 h2
  simp only [Option.map_eq_some'] at h1 h2
  obtain ⟨s1, hs1, rfl⟩ := h1
  obtain ⟨s2, hs2, rfl⟩ := h2
  rw [doWhile_fuel_irrelevant _ _ f1 f2 _ s1 s2 hs1 hs2]

/-! ## The two scenarios -/

/-- C11. Concrete scenario 1.  For the automaton with states `0, 1, 2`, alphabet `a`,
initial state `0`, final state `2`, symbol transition `(1, a, 2)` and epsilon transition
`(0, 1)`, the conversion yields `closure(0) = {0, 1}`, `closure(1) = {1}`,
`closure(2) = {2}`, converted transitions exactly `(0, a, 2)` and `(1, a, 2)`, and final
states exactly `{2}`.  The bound `10` on the passes is `num_states * num_states + 1`;
by `compute_epsilon_closure_fuel_irrelevant` every bound that suffices gives the same
result. -/
theorem scenario_one :
    (compute_epsilon_closure 10 sampleAutomaton).map
        (fun c => (closureSet c 0, closureSet c 1, closureSet c 2)) =
      some ([0, 1], [1], [2]) ∧
    (convert 10 sampleAutomaton).map
        (fun r => ((display_result r).transitions.map PrintedTransition.triple,
          (display_result r).final_states)) =
      some ([(0, 0, 2), (1, 0, 2)], [2]) := by
  constructor <;> decide

/-- C12, as stated, fails: in the second scenario the epsilon transition `(0, 1)` is still
present, so `closure(0)` is `{0, 1, 2}`, not `{0, 2}`. -/
theorem scenario_two_counterexample :
    (compute_epsilon_closure 10 scenarioTwo).map (fun c => closureSet c 0) ≠ some [0, 2] ∧
    scenarioTwo.epsilon_transitions 0 1 ≠ 0 ∧
    (compute_epsilon_closure 10 scenarioTwo).map (fun c => c.epsilon_closure 0 1) = some 1 := by
  refine ⟨?_, ?_, ?_⟩ <;> decide

/-- C12, amended.  For the automaton of scenario 1 with the epsilon transition `(0, 2)`
added (epsilon transitions `(0, 1)` and `(0, 2)`), `compute_epsilon_closure` yields
`closure(0) = {0, 1, 2}` and `update_final_states` yields final states exactly `{0, 2}`. -/
theorem scenario_two :
    (compute_epsilon_closure 10 scenarioTwo).map (fun c => closureSet c 0) =
      some [0, 1, 2] ∧
    (convert 10 scenarioTwo).map (fun r => (display_result r).final_states) =
      some [0, 2] := by
  constructor <;> decide

/-! ## Termination of the closure loop -/

theorem setCount_add_unsetCount (n : Nat) (cl : Table2) :
    setCount n cl + unsetCount n cl = n * n := by
  unfold setCount unsetCount
  have h := Finset.filter_card_add_filter_neg_card_eq_card
    (s := Finset.range n ×ˢ Finset.range n) (fun p : Nat × Nat => cl p.1 p.2 = 0)
  simp only [Finset.card_product, Finset.card_range] at h
  simp only [ne_eq]
  omega

theorem keep_stable (eps : Table2) (n : Nat) (cl0 : Table2) :
    UpdateStable eps n (fun s => ∀ x y, cl0 x y ≠ 0 → s.1 x y ≠ 0) := by
  intro s i j k _ _ _ h _ _ _ x y hxy
  exact set2_one_ne_zero _ _ _ _ _ (h x y hxy)

/-- C18. Termination of the closure fixed point.  For every automaton that fits the
tables and every content of `epsilon_transitions`, the `do ... while (has_changes)` loop
of `compute_epsilon_closure` terminates within `num_states * num_states + 1` passes,
because, for every pass (from any table), a pass that ends with `has_changes` set has
strictly increased the number of set cells among the `num_states × num_states` cells,
that number never exceeds `num_states * num_states`, and no pass clears a cell. -/
theorem closure_loop_terminates (g : Globals) (_hfit : FitsTables g) :
    (∀ fuel, g.num_states.toNat * g.num_states.toNat < fuel →
      ∃ r, compute_epsilon_closure fuel g = some r) ∧
    (∀ s : Table2 × Int,
      ((passWith g.epsilon_transitions (List.range g.num_states.toNat)
          (List.range g.num_states.toNat) (List.range g.num_states.toNat) s).2 ≠ 0 →
        setCount g.num_states.toNat s.1 <
          setCount g.num_states.toNat
            (passWith g.epsilon_transitions (List.range g.num_states.toNat)
              (List.range g.num_states.toNat) (List.range g.num_states.toNat) s).1) ∧
      setCount g.num_states.toNat
          (passWith g.epsilon_transitions (List.range g.num_states.toNat)
            (List.range g.num_states.toNat) (List.range g.num_states.toNat) s).1 ≤
        g.num_states.toNat * g.num_states.toNat ∧
      (∀ x y, s.1 x y ≠ 0 →
        (passWith g.epsilon_transitions (List.range g.num_states.toNat)
          (List.range g.num_states.toNat) (List.range g.num_states.toNat) s).1 x y ≠ 0)) := by
  have hr : ∀ x, x ∈ List.range g.num_states.toNat → x < g.num_states.toNat :=
    fun _ h => List.mem_range.mp h
  refine ⟨fun fuel hfuel => ?_, fun s => ⟨?_, ?_, ?_⟩⟩
  · obtain ⟨r, hr, _⟩ := compute_epsilon_closure_spec g fuel hfuel
    exact ⟨r, hr⟩
  · intro hflag
    have h1 := setCount_add_unsetCount g.num_states.toNat s.1
    have h2 := setCount_add_unsetCount g.num_states.toNat
      (passWith g.epsilon_transitions (List.range g.num_states.toNat)
        (List.range g.num_states.toNat) (List.range g.num_states.toNat) s).1
    rcases passWith_passInv g.epsilon_transitions g.num_states.toNat _ _ _ hr hr hr s
      with ⟨h0, _⟩ | ⟨_, hlt⟩
    · exact absurd h0 hflag
    · omega
  · have h2 := setCount_add_unsetCount g.num_states.toNat
      (passWith g.epsilon_transitions (List.range g.num_states.toNat)
        (List.range g.num_states.toNat) (List.range g.num_states.toNat) s).1
    omega
  · exact passWith_inv g.epsilon_transitions g.num_states.toNat _
      (keep_stable g.epsilon_transitions g.num_states.toNat s.1) _ _ _ hr hr hr s (fun _ _ h => h)

/-! ## Transitions kept and saturation -/

/-- C19. Elimination never removes an original transition: for an automaton that fits
the tables, after `compute_epsilon_closure` and `eliminate_epsilon_transitions`, every
symbol transition `(p, a, q)` with `p, q` below `num_states` and `a` below `num_symbols`
is also a converted transition. -/
theorem original_transitions_kept (g : Globals) (_hfit : FitsTables g) (fuel : Nat)
    (hfuel : g.num_states.toNat * g.num_states.toNat < fuel) :
    ∃ c, compute_epsilon_closure fuel g = some c ∧
      ∀ p a q, p < g.num_states.toNat → a < g.num_symbols.toNat → q < g.num_states.toNat →
        g.symbol_transitions p a q ≠ 0 →
        (eliminate_epsilon_transitions c).converted_transitions p a q ≠ 0 := by
  obtain ⟨c, hc, hcl⟩ := compute_epsilon_closure_spec g fuel hfuel
  refine ⟨c, hc, fun p a q hp ha hq h => ?_⟩
  have hn := hcl.num_states_eq
  have hm := hcl.num_symbols_eq
  rw [eliminate_complete c p a q
    ⟨by rw [hn]; exact hp, by rw [hm]; exact ha, by rw [hn]; exact hq, p, q,
      by rw [hn]; exact hp, by rw [hn]; exact hq, hcl.refl p hp,
      by rw [hcl.symbol_transitions_eq]; exact h, hcl.refl q hq⟩]
  decide

/-- C20. The converted transition relation is saturated under the epsilon-closure on
both sides.  For an automaton that fits the tables, with the derived tables zeroed, and
all states `s, t, d, e` below `num_states` and `a` below `num_symbols`: (i) if `t` is in
`closure(s)` and `converted_transitions[t][a][d]` is set then
`converted_transitions[s][a][d]` is set; (ii) if `converted_transitions[s][a][d]` is set
and `e` is in `closure(d)` then `converted_transitions[s][a][e]` is set. -/
theorem converted_saturated (g : Globals) (hfit : FitsTables g) (hzc : ClosureZeroed g)
    (hzv : ConvertedZeroed g) (fuel : Nat)
    (hfuel : g.num_states.toNat * g.num_states.toNat < fuel) :
    ∃ c, compute_epsilon_closure fuel g = some c ∧
      (∀ s t d a, s < g.num_states.toNat → t < g.num_states.toNat →
        d < g.num_states.toNat → a < g.num_symbols.toNat →
        c.epsilon_closure s t ≠ 0 →
        (eliminate_epsilon_transitions c).converted_transitions t a d ≠ 0 →
        (eliminate_epsilon_transitions c).converted_transitions s a d ≠ 0) ∧
      (∀ s d e a, s < g.num_states.toNat → d < g.num_states.toNat →
        e < g.num_states.toNat → a < g.num_symbols.toNat →
        (eliminate_epsilon_transitions c).converted_transitions s a d ≠ 0 →
        c.epsilon_closure d e ≠ 0 →
        (eliminate_epsilon_transitions c).converted_transitions s a e ≠ 0) := by
  obtain ⟨c, hc, hcl⟩ := compute_epsilon_closure_spec g fuel hfuel
  have hz := hzc.in_range hfit
  have hn := hcl.num_states_eq
  have hm := hcl.num_symbols_eq
  have hfitc : FitsTables c := by
    unfold FitsTables; rw [hn, hm]; exact hfit
  have hzvc : ConvertedZeroed c := by
    unfold ConvertedZeroed; rw [hcl.converted_transitions_eq]; exact hzv
  have hiff : ∀ x a y, x < g.num_states.toNat → a < g.num_symbols.toNat →
      y < g.num_states.toNat →
      ((eliminate_epsilon_transitions c).converted_transitions x a y ≠ 0 ↔ Rewritten c x a y) :=
    fun x a y hx ha hy => eliminate_iff c hfitc hzvc x a y (by rw [hn]; exact hx)
      (by rw [hm]; exact ha) (by rw [hn]; exact hy)
  refine ⟨c, hc, ?_, ?_⟩
  · intro s t d a hs ht hd ha hst htd
    obtain ⟨_, _, _, via, mid, hv, hmid, h1, h2, h3⟩ := (hiff t a d ht ha hd).mp htd
    rw [hn] at hv hmid
    exact (hiff s a d hs ha hd).mpr ⟨by rw [hn]; exact hs, by rw [hm]; exact ha,
      by rw [hn]; exact hd, via, mid, by rw [hn]; exact hv, by rw [hn]; exact hmid,
      hcl.trans hz s t via hs ht hv hst h1, h2, h3⟩
  · intro s d e a hs hd he ha hsd hde
    obtain ⟨_, _, _, via, mid, hv, hmid, h1, h2, h3⟩ := (hiff s a d hs ha hd).mp hsd
    rw [hn] at hv hmid
    exact (hiff s a e hs ha he).mpr ⟨by rw [hn]; exact hs, by rw [hm]; exact ha,
      by rw [hn]; exact he, via, mid, by rw [hn]; exact hv, by rw [hn]; exact hmid,
      h1, h2, hcl.trans hz mid d e hmid hd he h3 hde⟩

/-! ## The printed output -/

/-- A loop that appends `f x` for the elements `x` passing a test prints the filtered
list. -/
theorem foldl_emit {α β : Type} (P : α → Prop) [DecidablePred P] (f : α → β) (xs : List α)
    (out : List β) :
    xs.foldl (fun out x => if P x then out ++ [f x] else out) out =
      out ++ (xs.filter (fun x => decide (P x))).map f := by
  induction xs generalizing out with
  | nil => simp
  | cons x xs ih =>
    simp only [List.foldl_cons, ih]
    by_cases h : P x
    · simp [h, List.filter_cons]
    · simp [h, List.filter_cons]

/-- A loop whose iteration `x` appends the list `L x` prints the concatenation. -/
theorem foldl_emit_lists {α β : Type} (body : List β → α → List β) (L : α → List β)
    (xs : List α) (h : ∀ out x, x ∈ xs → body out x = out ++ L x) (out : List β) :
    xs.foldl body out = out ++ xs.flatMap L := by
  induction xs generalizing out with
  | nil => simp
  | cons x xs ih =>
    simp only [List.foldl_cons, List.flatMap_cons]
    rw [h out x (by simp), ih (fun out y hy => h out y (by simp [hy]))]
    simp

theorem display_result_final_states (g : Globals) :
    (display_result g).final_states =
      (List.range g.num_states.toNat).filter (fun i => decide (g.final_states i ≠ 0)) := by
  show (List.range g.num_states.toNat).foldl
      (fun out i => if g.final_states i ≠ 0 then out ++ [i] else out) [] = _
  rw [foldl_emit (fun i => g.final_states i ≠ 0) (fun i => i)]
  simp

theorem display_result_transitions (g : Globals) :
    (display_result g).transitions =
      (List.range g.num_states.toNat).flatMap (fun i => printedRow g i) := by
  unfold display_result
  dsimp only
  rw [foldl_emit_lists _ (fun i => printedRow g i)]
  · simp
  · intro out i _
    unfold printedRow
    apply foldl_emit_lists _ (fun j => printedCell g i j)
    intro out j _
    unfold printedCell
    exact foldl_emit (fun k => g.converted_transitions i j k ≠ 0) _ _ _

theorem mem_printedCell (g : Globals) (i j : Nat) (t : PrintedTransition) :
    t ∈ printedCell g i j ↔
      t.from_state = i ∧ t.symbol_idx = j ∧ t.symbol = g.alphabet j ∧
        t.to_state < g.num_states.toNat ∧ g.converted_transitions i j t.to_state ≠ 0 := by
  unfold printedCell
  simp only [List.mem_map, List.mem_filter, List.mem_range, decide_eq_true_eq]
  constructor
  · rintro ⟨k, ⟨hk, hc⟩, rfl⟩
    exact ⟨rfl, rfl, rfl, hk, hc⟩
  · rintro ⟨h1, h2, h3, h4, h5⟩
    refine ⟨t.to_state, ⟨h4, h5⟩, ?_⟩
    cases t
    simp only at h1 h2 h3
    subst h1 h2 h3
    rfl

theorem mem_printedRow (g : Globals) (i : Nat) (t : PrintedTransition) :
    t ∈ printedRow g i ↔
      t.from_state = i ∧ t.symbol_idx < g.num_symbols.toNat ∧
        t.symbol = g.alphabet t.symbol_idx ∧
        t.to_state < g.num_states.toNat ∧
        g.converted_transitions i t.symbol_idx t.to_state ≠ 0 := by
  unfold printedRow
  simp only [List.mem_flatMap, List.mem_range, mem_printedCell]
  constructor
  · rintro ⟨j, hj, h1, h2, h3, h4, h5⟩
    subst h2
    exact ⟨h1, hj, h3, h4, h5⟩
  · rintro ⟨h1, h2, h3, h4, h5⟩
    exact ⟨t.symbol_idx, h2, h1, rfl, h3, h4, h5⟩

theorem pairwise_printedCell (g : Globals) (i j : Nat) :
    (printedCell g i j).Pairwise (fun a b => TripleLt a.triple b.triple) := by
  unfold printedCell
  rw [List.pairwise_map]
  apply List.Pairwise.filter
  apply (List.pairwise_lt_range g.num_states.toNat).imp
  intro a b hab
  right
  exact ⟨rfl, Or.inr ⟨rfl, hab⟩⟩

theorem pairwise_printedRow (g : Globals) (i : Nat) :
    (printedRow g i).Pairwise (fun a b => TripleLt a.triple b.triple) := by
  unfold printedRow
  rw [List.pairwise_flatMap]
  refine ⟨fun j _ => pairwise_printedCell g i j, ?_⟩
  apply (List.pairwise_lt_range g.num_symbols.toNat).imp
  intro j1 j2 hj x hx y hy
  rw [mem_printedCell] at hx hy
  right
  refine ⟨?_, Or.inl ?_⟩
  · show x.from_state = y.from_state
    rw [hx.1, hy.1]
  · show x.symbol_idx < y.symbol_idx
    rw [hx.2.1, hy.2.1]
    exact hj

theorem pairwise_printed (g : Globals) :
    (display_result g).transitions.Pairwise (fun a b => TripleLt a.triple b.triple) := by
  rw [display_result_transitions, List.pairwise_flatMap]
  refine ⟨fun i _ => pairwise_printedRow g i, ?_⟩
  apply (List.pairwise_lt_range g.num_states.toNat).imp
  intro i1 i2 hi x hx y hy
  rw [mem_printedRow] at hx hy
  left
  show x.from_state < y.from_state
  rw [hx.1, hy.1]
  exact hi

theorem tripleLt_irrefl (a : Nat × Nat × Nat) : ¬ TripleLt a a := by
  unfold TripleLt
  omega

/-- C16. Stable output order.  For an automaton that fits the tables, the index triples
`(fromState, symbolIndex, toState)` of the transition lines printed by `display_result`
are exactly the triples set in `converted_transitions` with `fromState`, `toState` below
`num_states` and `symbolIndex` below `num_symbols`, each printed once, in strictly
ascending lexicographic order by `fromState`, then alphabet index, then `toState`; the
printed symbol is `alphabet[symbolIndex]`; the printed final states are exactly the
states below `num_states` set in `final_states`, in strictly ascending order. -/
theorem display_order (g : Globals) (_hfit : FitsTables g) :
    (∀ i j k, (i, j, k) ∈ (display_result g).transitions.map PrintedTransition.triple ↔
      i < g.num_states.toNat ∧ j < g.num_symbols.toNat ∧ k < g.num_states.toNat ∧
        g.converted_transitions i j k ≠ 0) ∧
    ((display_result g).transitions.map PrintedTransition.triple).Pairwise TripleLt ∧
    ((display_result g).transitions.map PrintedTransition.triple).Nodup ∧
    (∀ t, t ∈ (display_result g).transitions → t.symbol = g.alphabet t.symbol_idx) ∧
    (∀ i, i ∈ (display_result g).final_states ↔
      i < g.num_states.toNat ∧ g.final_states i ≠ 0) ∧
    (display_result g).final_states.Pairwise (fun a b => a < b) := by
  have hmem : ∀ t, t ∈ (display_result g).transitions ↔
      t.from_state < g.num_states.toNat ∧ t.symbol_idx < g.num_symbols.toNat ∧
        t.symbol = g.alphabet t.symbol_idx ∧ t.to_state < g.num_states.toNat ∧
        g.converted_transitions t.from_state t.symbol_idx t.to_state ≠ 0 := by
    intro t
    rw [display_result_transitions]
    simp only [List.mem_flatMap, List.mem_range, mem_printedRow]
    constructor
    · rintro ⟨i, hi, h1, h2, h3, h4, h5⟩
      subst h1
      exact ⟨hi, h2, h3, h4, h5⟩
    · rintro ⟨h1, h2, h3, h4, h5⟩
      exact ⟨t.from_state, h1, rfl, h2, h3, h4, h5⟩
  have hsorted : ((display_result g).transitions.map PrintedTransition.triple).Pairwise
      TripleLt := by
    rw [List.pairwise_map]
    exact pairwise_printed g
  refine ⟨?_, hsorted, ?_, ?_, ?_, ?_⟩
  · intro i j k
    simp only [List.mem_map, hmem]
    constructor
    · rintro ⟨t, ⟨h1, h2, _, h4, h5⟩, heq⟩
      simp only [PrintedTransition.triple, Prod.mk.injEq] at heq
      obtain ⟨rfl, rfl, rfl⟩ := heq
      exact ⟨h1, h2, h4, h5⟩
    · rintro ⟨h1, h2, h3, h4⟩
      exact ⟨{ from_state := i, symbol_idx := j, symbol := g.alphabet j, to_state := k },
        ⟨h1, h2, rfl, h3, h4⟩, rfl⟩
  · apply hsorted.imp
    intro a b hab heq
    subst heq
    exact tripleLt_irrefl a hab
  · intro t ht
    exact ((hmem t).mp ht).2.2.1
  · intro i
    rw [display_result_final_states]
    simp
  · rw [display_result_final_states]
    exact (List.pairwise_lt_range g.num_states.toNat).filter _

/-! ## The checked program agrees with the table-level program -/

/-- Simulation rule for loops: if every iteration of the checked loop on the image of a
state returns the image of the unchecked iteration, so does the whole loop. -/
theorem foldlM_sim {σ τ α : Type} (φ : τ → σ) (f : σ → α → Option σ) (f' : τ → α → τ)
    (xs : List α) (h : ∀ t x, x ∈ xs → f (φ t) x = some (φ (f' t x))) (t : τ) :
    xs.foldlM f (φ t) = some (φ (xs.foldl f' t)) := by
  induction xs generalizing t with
  | nil => rfl
  | cons x xs ih =>
    rw [List.foldlM_cons, h t x (by simp)]
    simp only [List.foldl_cons]
    exact ih (fun t y hy => h t y (by simp [hy])) (f' t x)

/-- Simulation rule for `doWhile`. -/
theorem doWhile_sim {σ τ : Type} (φ : τ → σ) (body : σ → σ) (body' : τ → τ)
    (cond : σ → Bool) (cond' : τ → Bool) (hb : ∀ t, body (φ t) = φ (body' t))
    (hc : ∀ t, cond (φ t) = cond' t) :
    ∀ fuel t, doWhile body cond fuel (φ t) = (doWhile body' cond' fuel t).map φ := by
  intro fuel
  induction fuel with
  | zero => intro t; rfl
  | succ fuel ih =>
    intro t
    simp only [doWhile, hb, hc]
    by_cases h : cond' (body' t) = true
    · simp only [h, if_true]
      exact ih (body' t)
    · simp [h]

theorem read1_of_lt (t : Nat → Int) (i : Nat) (hi : i < MAX_STATES) :
    read1 t i = some (t i) := by
  simp [read1, hi]

theorem write1_of_lt (t : Nat → Int) (i : Nat) (v : Int) (hi : i < MAX_STATES) :
    write1 t i v = some (set1 t i v) := by
  simp [write1, hi]

theorem read2_of_lt (t : Table2) (i k : Nat) (hi : i < MAX_STATES) (hk : k < MAX_STATES) :
    read2 t i k = some (t i k) := by
  simp [read2, hi, hk]

theorem write2_of_lt (t : Table2) (i k : Nat) (v : Int) (hi : i < MAX_STATES)
    (hk : k < MAX_STATES) : write2 t i k v = some (set2 t i k v) := by
  simp [write2, hi, hk]

theorem read3_of_lt (t : Table3) (i a k : Nat) (hi : i < MAX_STATES)
    (ha : a < MAX_ALPHABET_SIZE) (hk : k < MAX_STATES) : read3 t i a k = some (t i a k) := by
  simp [read3, hi, ha, hk]

theorem write3_of_lt (t : Table3) (i a k : Nat) (v : Int) (hi : i < MAX_STATES)
    (ha : a < MAX_ALPHABET_SIZE) (hk : k < MAX_STATES) :
    write3 t i a k v = some (set3 t i a k v) := by
  simp [write3, hi, ha, hk]

/-- On an automaton that fits the tables the checked `update_final_states` never leaves
an array and returns the state computed by `update_final_states`. -/
theorem update_final_states_checked_eq (g : Globals) (hfit : FitsTables g) :
    update_final_states_checked g = some (update_final_states g) := by
  have hlt : ∀ i, i ∈ List.range g.num_states.toNat → i < MAX_STATES :=
    fun i hi => hfit.state_lt (List.mem_range.mp hi)
  rw [update_final_states_eq]
  unfold update_final_states_checked
  refine foldlM_sim (fun fin : Nat → Int => { g with final_states := fin }) _
    (fun fin i => finRow g i fin) _ ?_ g.final_states
  intro fin i hi
  unfold finRow
  refine foldlM_sim (fun fin : Nat → Int => { g with final_states := fin }) _ _ _ ?_ fin
  intro fin j hj
  simp only [read2_of_lt _ i j (hlt i hi) (hlt j hj), read1_of_lt _ j (hlt j hj),
    write1_of_lt _ i 1 (hlt i hi), Option.some_bind, Option.map_some']
  by_cases h1 : g.epsilon_closure i j ≠ 0
  · by_cases h2 : fin j ≠ 0
    · simp [h1, h2]
    · simp [h1, h2]
  · simp [h1]

/-- On an automaton that fits the tables the checked `eliminate_epsilon_transitions`
never leaves an array and returns the state computed by `eliminate_epsilon_transitions`. -/
theorem eliminate_epsilon_transitions_checked_eq (g : Globals) (hfit : FitsTables g) :
    eliminate_epsilon_transitions_checked g = some (eliminate_epsilon_transitions g) := by
  have hlt : ∀ i, i ∈ List.range g.num_states.toNat → i < MAX_STATES :=
    fun i hi => hfit.state_lt (List.mem_range.mp hi)
  have hlta : ∀ a, a ∈ List.range g.num_symbols.toNat → a < MAX_ALPHABET_SIZE :=
    fun a ha => hfit.symbol_lt (List.mem_range.mp ha)
  rw [eliminate_epsilon_transitions_eq]
  unfold eliminate_epsilon_transitions_checked
  refine foldlM_sim (fun conv : Table3 => { g with converted_transitions := conv }) _
    (fun conv source => elimVia g source conv) _ ?_ g.converted_transitions
  intro conv source hs
  unfold elimVia
  refine foldlM_sim (fun conv : Table3 => { g with converted_transitions := conv }) _ _ _ ?_ conv
  intro conv via hv
  simp only [read2_of_lt _ source via (hlt source hs) (hlt via hv), Option.some_bind]
  by_cases h1 : g.epsilon_closure source via ≠ 0
  · simp only [if_pos h1]
    unfold elimSym
    refine foldlM_sim (fun conv : Table3 => { g with converted_transitions := conv }) _ _ _ ?_
      conv
    intro conv sym ha
    unfold elimMid
    refine foldlM_sim (fun conv : Table3 => { g with converted_transitions := conv }) _ _ _ ?_
      conv
    intro conv mid hm
    simp only [read3_of_lt _ via sym mid (hlt via hv) (hlta sym ha) (hlt mid hm),
      Option.some_bind]
    by_cases h2 : g.symbol_transitions via sym mid ≠ 0
    · simp only [if_pos h2]
      unfold elimDest
      refine foldlM_sim (fun conv : Table3 => { g with converted_transitions := conv }) _ _ _ ?_
        conv
      intro conv dest hd
      simp only [read2_of_lt _ mid dest (hlt mid hm) (hlt dest hd),
        write3_of_lt _ source sym dest 1 (hlt source hs) (hlta sym ha) (hlt dest hd),
        Option.some_bind, Option.map_some']
      by_cases h3 : g.epsilon_closure mid dest ≠ 0
      · simp only [if_pos h3]
      · simp only [if_neg h3]
    · simp only [if_neg h2]
  · simp only [if_neg h1]

/-- On the image of a table-level loop state, a checked pass returns the image of the
table-level pass. -/
theorem closure_pass_checked_eq (g : Globals) (hfit : FitsTables g) (s : Table2 × Int) :
    closure_pass_checked ({ g with epsilon_closure := s.1 }, s.2) =
      some ({ g with epsilon_closure :=
              (passWith g.epsilon_transitions (List.range g.num_states.toNat)
                (List.range g.num_states.toNat) (List.range g.num_states.toNat) s).1 },
            (passWith g.epsilon_transitions (List.range g.num_states.toNat)
                (List.range g.num_states.toNat) (List.range g.num_states.toNat) s).2) := by
  have hlt : ∀ i, i ∈ List.range g.num_states.toNat → i < MAX_STATES :=
    fun i hi => hfit.state_lt (List.mem_range.mp hi)
  unfold closure_pass_checked passWith
  refine foldlM_sim
    (fun s : Table2 × Int => (({ g with epsilon_closure := s.1 } : Globals), s.2)) _
    (fun s i => passJ g.epsilon_transitions (List.range g.num_states.toNat)
      (List.range g.num_states.toNat) i s) _ ?_ (s.1, 0)
  intro s i hi
  unfold passJ
  refine foldlM_sim
    (fun s : Table2 × Int => (({ g with epsilon_closure := s.1 } : Globals), s.2)) _ _ _ ?_ s
  intro s j hj
  simp only [read2_of_lt _ i j (hlt i hi) (hlt j hj), Option.some_bind]
  by_cases h1 : s.1 i j ≠ 0
  · simp only [if_pos h1]
    unfold passK
    refine foldlM_sim
      (fun s : Table2 × Int => (({ g with epsilon_closure := s.1 } : Globals), s.2)) _ _ _ ?_ s
    intro s k hk
    simp only [read2_of_lt _ j k (hlt j hj) (hlt k hk), read2_of_lt _ i k (hlt i hi) (hlt k hk),
      write2_of_lt _ i k 1 (hlt i hi) (hlt k hk), Option.some_bind, Option.map_some']
    by_cases h2 : g.epsilon_transitions j k ≠ 0
    · by_cases h3 : s.1 i k = 0
      · simp [h2, h3]
      · simp [h2, h3]
    · simp [h2]
  · simp only [if_neg h1]

/-- On an automaton that fits the tables the checked `compute_epsilon_closure` never
leaves an array: it runs out of passes exactly when `compute_epsilon_closure` does, and
otherwise returns the same state. -/
theorem compute_epsilon_closure_checked_eq (fuel : Nat) (g : Globals) (hfit : FitsTables g) :
    compute_epsilon_closure_checked fuel g = (compute_epsilon_closure fuel g).map some := by
  have hlt : ∀ i, i ∈ List.range g.num_states.toNat → i < MAX_STATES :=
    fun i hi => hfit.state_lt (List.mem_range.mp hi)
  have hinit : (List.range g.num_states.toNat).foldlM (fun g i =>
        (write2 g.epsilon_closure i i 1).map (fun t => { g with epsilon_closure := t })) g =
      some { g with epsilon_closure :=
        (List.range g.num_states.toNat).foldl (fun cl i => set2 cl i i 1) g.epsilon_closure } := by
    refine foldlM_sim (fun cl : Table2 => { g with epsilon_closure := cl }) _ _ _ ?_
      g.epsilon_closure
    intro cl i hi
    simp only [write2_of_lt _ i i 1 (hlt i hi) (hlt i hi), Option.map_some']
  rw [compute_epsilon_closure_eq]
  unfold compute_epsilon_closure_checked closureWith
  rw [hinit]
  have hsim := doWhile_sim
    (fun s : Table2 × Int => some (({ g with epsilon_closure := s.1 } : Globals), s.2))
    (fun (s : Option (Globals × Int)) => s.bind closure_pass_checked)
    (passWith g.epsilon_transitions (List.range g.num_states.toNat)
      (List.range g.num_states.toNat) (List.range g.num_states.toNat))
    (fun s => match s with
      | none => false
      | some s => decide (s.2 ≠ 0))
    (fun s => decide (s.2 ≠ 0))
    (fun s => by
      simp only [Option.some_bind]
      exact closure_pass_checked_eq g hfit s)
    (fun s => rfl) fuel
    ((List.range g.num_states.toNat).foldl (fun cl i => set2 cl i i 1) g.epsilon_closure, 0)
  simp only [Option.map_some'] at hsim ⊢
  rw [hsim]
  simp only [Option.map_map]
  rfl

/-- On an automaton that fits the tables the checked conversion agrees with `convert`. -/
theorem convert_checked_eq (fuel : Nat) (g : Globals) (hfit : FitsTables g) :
    convert_checked fuel g = (convert fuel g).map some := by
  unfold convert_checked convert
  rw [compute_epsilon_closure_checked_eq fuel g hfit]
  cases h : compute_epsilon_closure fuel g with
  | none => rfl
  | some c =>
    have hframe : c.num_states = g.num_states ∧ c.num_symbols = g.num_symbols := by
      unfold compute_epsilon_closure at h
      simp only [Option.map_eq_some'] at h
      obtain ⟨s, _, hs⟩ := h
      rw [← hs]
      exact ⟨rfl, rfl⟩
    have hc : FitsTables c := by
      unfold FitsTables
      rw [hframe.1, hframe.2]
      exact hfit
    simp only [Option.map_some', Option.some_bind]
    rw [eliminate_epsilon_transitions_checked_eq c hc]
    simp only [Option.some_bind]
    rw [update_final_states_checked_eq (eliminate_epsilon_transitions c) hc]

/-! ## Array bounds and the frame of the three functions -/

theorem oversizedAutomaton_valid : ValidAutomaton oversizedAutomaton :=
  ⟨by decide, by decide, fun _ h => absurd rfl h, fun _ _ _ h => absurd rfl h,
    fun _ _ h => absurd rfl h⟩

/-- C13, as stated, fails: `oversizedAutomaton` meets the input contract, and with its
eleven states the initial loop of `compute_epsilon_closure` assigns
`epsilon_closure[10][10]`, outside the `[10][10]` array. -/
theorem bounds_counterexample :
    ValidAutomaton oversizedAutomaton ∧
    write2 oversizedAutomaton.epsilon_closure 10 10 1 = none ∧
    compute_epsilon_closure_checked 200 oversizedAutomaton = some none ∧
    convert_checked 200 oversizedAutomaton = some none := by
  refine ⟨oversizedAutomaton_valid, rfl, ?_, ?_⟩
  · have h : (compute_epsilon_closure_checked 200 oversizedAutomaton).map
        (fun r => r.isSome) = some false := by decide
    cases hc : compute_epsilon_closure_checked 200 oversizedAutomaton with
    | none => rw [hc] at h; simp at h
    | some r =>
      rw [hc] at h
      cases r with
      | none => rfl
      | some r => simp at h
  · have h : (convert_checked 200 oversizedAutomaton).map
        (fun r => r.isSome) = some false := by decide
    cases hc : convert_checked 200 oversizedAutomaton with
    | none => rw [hc] at h; simp at h
    | some r =>
      rw [hc] at h
      cases r with
      | none => rfl
      | some r => simp at h

/-- C13, amended.  For every automaton that meets the input contract and fits the tables
(`num_states ≤ MAX_STATES`, `num_symbols ≤ MAX_ALPHABET_SIZE`), every table access of
`compute_epsilon_closure`, `eliminate_epsilon_transitions` and `update_final_states` is
inside the array it indexes: the checked versions never take their out-of-bounds branch
and return what the unchecked functions compute, each on its own and in the sequence
run by `main`. -/
theorem no_out_of_bounds_access (g : Globals) (_hvalid : ValidAutomaton g)
    (hfit : FitsTables g) (fuel : Nat)
    (hfuel : g.num_states.toNat * g.num_states.toNat < fuel) :
    (∃ c, compute_epsilon_closure_checked fuel g = some (some c) ∧
      compute_epsilon_closure fuel g = some c) ∧
    eliminate_epsilon_transitions_checked g = some (eliminate_epsilon_transitions g) ∧
    update_final_states_checked g = some (update_final_states g) ∧
    (∃ r, convert_checked fuel g = some (some r) ∧ convert fuel g = some r) := by
  obtain ⟨c, hc, _, hconv⟩ := convert_spec g fuel hfuel
  refine ⟨⟨c, ?_, hc⟩, eliminate_epsilon_transitions_checked_eq g hfit,
    update_final_states_checked_eq g hfit, ⟨_, ?_, hconv⟩⟩
  · rw [compute_epsilon_closure_checked_eq fuel g hfit, hc]
    rfl
  · rw [convert_checked_eq fuel g hfit, hconv]
    rfl

/-- C14, as stated, fails: `update_final_states` writes the table `final_states` of the
source automaton.  In `scenarioTwo` state `0` is not final before the conversion and is
final after it. -/
theorem input_mutated_counterexample :
    scenarioTwo.final_states 0 = 0 ∧
    (convert_checked 10 scenarioTwo).map
      (fun r => r.map (fun r => r.final_states 0)) = some (some 1) ∧
    (compute_epsilon_closure 10 scenarioTwo).map
      (fun c => (update_final_states c).final_states 0) = some 1 := by
  refine ⟨?_, ?_, ?_⟩ <;> decide

/-- C14, amended.  On an automaton that fits the tables, `compute_epsilon_closure`
changes only `epsilon_closure`, `eliminate_epsilon_transitions` changes only
`converted_transitions`, and `update_final_states` changes only `final_states`, which it
overwrites in place and in which it only sets cells.  So `num_states`, `num_symbols`,
`alphabet`, `initial_state`, `symbol_transitions` and `epsilon_transitions` are never
changed, and no step writes the table produced by an earlier step. -/
theorem input_frame (g : Globals) (hfit : FitsTables g) (fuel : Nat)
    (hfuel : g.num_states.toNat * g.num_states.toNat < fuel) :
    (∃ c, compute_epsilon_closure_checked fuel g = some (some c) ∧
      c = { g with epsilon_closure := c.epsilon_closure }) ∧
    (∃ e, eliminate_epsilon_transitions_checked g = some e ∧
      e = { g with converted_transitions := e.converted_transitions }) ∧
    (∃ r, update_final_states_checked g = some r ∧
      r = { g with final_states := r.final_states } ∧
      ∀ i, g.final_states i ≠ 0 → r.final_states i ≠ 0) := by
  obtain ⟨c, hc, hcl⟩ := compute_epsilon_closure_spec g fuel hfuel
  refine ⟨⟨c, ?_, hcl.frame⟩, ⟨_, eliminate_epsilon_transitions_checked_eq g hfit, rfl⟩,
    ⟨_, update_final_states_checked_eq g hfit, rfl, update_final_states_mono g⟩⟩
  rw [compute_epsilon_closure_checked_eq fuel g hfit, hc]
  rfl

/-- C15. The converted automaton has the same state set, alphabet and initial state as
the input: for an automaton that fits the tables, after the three conversion steps
`num_states`, `num_symbols`, every `alphabet[i]` and `initial_state` have the values they
had before, and `display_result` prints that initial state. -/
theorem converted_keeps_shape (g : Globals) (hfit : FitsTables g) (fuel : Nat)
    (hfuel : g.num_states.toNat * g.num_states.toNat < fuel) :
    ∃ r, convert_checked fuel g = some (some r) ∧
      r.num_states = g.num_states ∧ r.num_symbols = g.num_symbols ∧
      (∀ i, r.alphabet i = g.alphabet i) ∧ r.initial_state = g.initial_state ∧
      (display_result r).start_state = g.initial_state := by
  obtain ⟨c, _, hcl, hconv⟩ := convert_spec g fuel hfuel
  have ha : (update_final_states (eliminate_epsilon_transitions c)).alphabet = g.alphabet := by
    show c.alphabet = g.alphabet
    rw [hcl.frame]
  refine ⟨update_final_states (eliminate_epsilon_transitions c), ?_, hcl.num_states_eq,
    hcl.num_symbols_eq, fun i => by rw [ha], hcl.initial_state_eq, hcl.initial_state_eq⟩
  rw [convert_checked_eq fuel g hfit, hconv]
  rfl

/-! ## Input validation -/

/-- Loop rule for checked loops: if every iteration returns (does not leave an array) and
preserves the invariant, the loop returns and the invariant holds after it. -/
theorem foldlM_some_inv {σ α : Type} (I : σ → Prop) (f : σ → α → Option σ) (xs : List α)
    (h : ∀ s x, x ∈ xs → I s → ∃ s', f s x = some s' ∧ I s') (s : σ) (hs : I s) :
    ∃ s', xs.foldlM f s = some s' ∧ I s' := by
  induction xs generalizing s with
  | nil => exact ⟨s, rfl, hs⟩
  | cons x xs ih =>
    obtain ⟨s1, h1, hI1⟩ := h s x (by simp) hs
    obtain ⟨s2, h2, hI2⟩ := ih (fun s y hy hI => h s y (by simp [hy]) hI) s1 hI1
    exact ⟨s2, by rw [List.foldlM_cons, h1]; exact h2, hI2⟩

theorem checkedIndex_of_mem (z : Int) (size : Nat) (h0 : 0 ≤ z) (h1 : z < size) :
    checkedIndex z size = some z.toNat ∧ z.toNat < size := by
  refine ⟨by simp [checkedIndex, h0, h1], ?_⟩
  omega

/-- The function `read_automaton_input` returns on every input that addresses cells inside
the arrays, and stores the counts and the initial state as read. -/
theorem read_automaton_input_returns (inp : AutomatonInput) (h : InsideArrays inp)
    (g0 : Globals) :
    ∃ g, read_automaton_input inp g0 = some g ∧ g.num_states = inp.num_states ∧
      g.num_symbols = inp.num_symbols ∧ g.initial_state = inp.initial_state := by
  obtain ⟨_, hm, hfin, hsym, heps⟩ := h
  have hma : ∀ i, i ∈ List.range inp.num_symbols.toNat → i < MAX_ALPHABET_SIZE := by
    intro i hi
    have := List.mem_range.mp hi
    unfold MAX_ALPHABET_SIZE at *
    omega
  unfold read_automaton_input
  dsimp only
  -- the alphabet loop
  obtain ⟨g1, h1, hI1⟩ := foldlM_some_inv
    (fun g : Globals => g.num_states = inp.num_states ∧ g.num_symbols = inp.num_symbols)
    (fun g i =>
      if i < MAX_ALPHABET_SIZE then
        some { g with alphabet := fun x => if x = i then inp.alphabet i else g.alphabet x }
      else none)
    (List.range inp.num_symbols.toNat)
    (fun g i hi hI =>
      ⟨{ g with alphabet := fun x => if x = i then inp.alphabet i else g.alphabet x },
        by simp only [if_pos (hma i hi)], hI⟩)
    { g0 with num_states := inp.num_states, num_symbols := inp.num_symbols } ⟨rfl, rfl⟩
  rw [h1]
  simp only [Option.some_bind]
  -- the final states
  obtain ⟨g2, h2, hI2⟩ := foldlM_some_inv
    (fun g : Globals => g.num_states = inp.num_states ∧ g.num_symbols = inp.num_symbols ∧
      g.initial_state = inp.initial_state)
    (fun g temp_state =>
      (checkedIndex temp_state MAX_STATES).bind (fun i =>
        (write1 g.final_states i 1).map (fun t => { g with final_states := t })))
    inp.final_states
    (fun g f hf hI => by
      obtain ⟨hc, hlt⟩ := checkedIndex_of_mem f MAX_STATES (hfin f hf).1 (hfin f hf).2
      exact ⟨{ g with final_states := set1 g.final_states f.toNat 1 },
        by simp only [hc, Option.some_bind, write1_of_lt _ _ _ hlt, Option.map_some'], hI⟩)
    { g1 with initial_state := inp.initial_state } ⟨hI1.1, hI1.2, rfl⟩
  rw [h2]
  simp only [Option.some_bind]
  -- the symbol transitions
  obtain ⟨g3, h3, hI3⟩ := foldlM_some_inv
    (fun g : Globals => g.num_states = inp.num_states ∧ g.num_symbols = inp.num_symbols ∧
      g.initial_state = inp.initial_state)
    (fun g (tr : Int × Char × Int) =>
      (List.range g.num_symbols.toNat).foldlM (fun g i =>
        if i < MAX_ALPHABET_SIZE then
          if g.alphabet i = tr.2.1 then
            (checkedIndex tr.1 MAX_STATES).bind (fun p =>
              (checkedIndex tr.2.2 MAX_STATES).bind (fun q =>
                (write3 g.symbol_transitions p i q 1).map
                  (fun t => { g with symbol_transitions := t })))
          else some g
        else none) g)
    inp.symbol_transitions
    (fun g tr htr hI => by
      obtain ⟨hp, hpl⟩ := checkedIndex_of_mem tr.1 MAX_STATES (hsym tr htr).1.1 (hsym tr htr).1.2
      obtain ⟨hq, hql⟩ := checkedIndex_of_mem tr.2.2 MAX_STATES (hsym tr htr).2.1
        (hsym tr htr).2.2
      dsimp only
      rw [hI.2.1]
      refine foldlM_some_inv
        (fun g : Globals => g.num_states = inp.num_states ∧
          g.num_symbols = inp.num_symbols ∧ g.initial_state = inp.initial_state)
        _ _ (fun g i hi hI => ?_) g hI
      simp only [if_pos (hma i hi)]
      by_cases hc : g.alphabet i = tr.2.1
      · exact ⟨{ g with symbol_transitions :=
            (set3 g.symbol_transitions tr.1.toNat i tr.2.2.toNat 1) },
          by simp only [if_pos hc, hp, hq, Option.some_bind,
            write3_of_lt _ _ _ _ _ hpl (hma i hi) hql, Option.map_some'], hI⟩
      · exact ⟨g, by simp only [if_neg hc], hI⟩)
    g2 hI2
  rw [h3]
  simp only [Option.some_bind]
  -- the epsilon transitions
  obtain ⟨g4, h4, hI4⟩ := foldlM_some_inv
    (fun g : Globals => g.num_states = inp.num_states ∧ g.num_symbols = inp.num_symbols ∧
      g.initial_state = inp.initial_state)
    (fun g (tr : Int × Int) =>
      (checkedIndex tr.1 MAX_STATES).bind (fun p =>
        (checkedIndex tr.2 MAX_STATES).bind (fun q =>
          (write2 g.epsilon_transitions p q 1).map
            (fun t => { g with epsilon_transitions := t }))))
    inp.epsilon_transitions
    (fun g tr htr hI => by
      obtain ⟨hp, hpl⟩ := checkedIndex_of_mem tr.1 MAX_STATES (heps tr htr).1.1 (heps tr htr).1.2
      obtain ⟨hq, hql⟩ := checkedIndex_of_mem tr.2 MAX_STATES (heps tr htr).2.1 (heps tr htr).2.2
      exact ⟨{ g with epsilon_transitions := set2 g.epsilon_transitions tr.1.toNat tr.2.toNat 1 },
        by simp only [hp, hq, Option.some_bind, write2_of_lt _ _ _ _ hpl hql,
          Option.map_some'], hI⟩)
    g3 hI3
  exact ⟨g4, h4, hI4⟩

set_option maxRecDepth 100000 in
/-- C17, as stated, fails: the program has no validation and no error exit.  On
`invalidInput`, whose initial state, final state, transition states and one transition
symbol are all outside the declared ranges, `read_automaton_input` returns a model (with
`final_states[7]`, `symbol_transitions[4][0][1]` and `epsilon_transitions[8][2]` set and
the transition on the unknown symbol dropped) and `main` runs the conversion and prints;
on `emptyInput`, whose counts are not positive, `main` runs and prints as well. -/
theorem validation_counterexample :
    ¬ (invalidInput.initial_state < invalidInput.num_states) ∧
    (∀ f, f ∈ invalidInput.final_states → ¬ f < invalidInput.num_states) ∧
    (read_automaton_input invalidInput (initialize_data_structures zeroGlobals)).map
        (fun g => (g.final_states 7, g.symbol_transitions 4 0 1, g.symbol_transitions 0 0 9,
          g.epsilon_transitions 8 2, g.initial_state)) = some (1, 1, 0, 1, 5) ∧
    main_checked 10 invalidInput zeroGlobals =
      some (some { start_state := 5, final_states := [], transitions := [] }) ∧
    emptyInput.num_states ≤ 0 ∧ emptyInput.num_symbols ≤ 0 ∧
    main_checked 10 emptyInput zeroGlobals =
      some (some { start_state := 0, final_states := [], transitions := [] }) := by
  refine ⟨?_, ?_, ?_, ?_, ?_, ?_, ?_⟩ <;> decide

/-- C17, amended.  The program validates nothing and has no error exit: for every input
whose counts do not exceed the table sizes and whose state indices address cells of the
tables (`0 ≤ index < MAX_STATES`), whether or not the indices lie in the declared range,
whether or not the symbols belong to the alphabet, and whether or not the counts are
positive, `read_automaton_input` returns a model holding the counts and the initial state
as read, and `main` runs the three conversion steps on it and prints the result. -/
theorem no_input_validation (inp : AutomatonInput) (h : InsideArrays inp) (g0 : Globals)
    (fuel : Nat) (hfuel : inp.num_states.toNat * inp.num_states.toNat < fuel) :
    ∃ g r, read_automaton_input inp (initialize_data_structures g0) = some g ∧
      g.num_states = inp.num_states ∧ g.num_symbols = inp.num_symbols ∧
      g.initial_state = inp.initial_state ∧
      convert_checked fuel g = some (some r) ∧
      main_checked fuel inp g0 = some (some (display_result r)) := by
  obtain ⟨g, hg, hn, hm, hi⟩ := read_automaton_input_returns inp h
    (initialize_data_structures g0)
  have hfit : FitsTables g := by
    unfold FitsTables
    rw [hn, hm]
    exact ⟨h.1, h.2.1⟩
  obtain ⟨c, _, _, hconv⟩ := convert_spec g fuel (by rw [hn]; exact hfuel)
  have hchk : convert_checked fuel g =
      some (some (update_final_states (eliminate_epsilon_transitions c))) := by
    rw [convert_checked_eq fuel g hfit, hconv]
    rfl
  refine ⟨g, _, hg, hn, hm, hi, hchk, ?_⟩
  unfold main_checked
  rw [hg]
  simp only [hchk, Option.map_some']

theorem invalidInput_insideArrays : InsideArrays invalidInput := by
  unfold InsideArrays
  decide

/-- Instance of the amended C17 on `invalidInput`. -/
theorem no_input_validation_witness :
    InsideArrays invalidInput ∧
    invalidInput.num_states.toNat * invalidInput.num_states.toNat < 10 ∧
    ∃ g r, read_automaton_input invalidInput (initialize_data_structures zeroGlobals) =
        some g ∧
      g.num_states = invalidInput.num_states ∧ g.num_symbols = invalidInput.num_symbols ∧
      g.initial_state = invalidInput.initial_state ∧
      convert_checked 10 g = some (some r) ∧
      main_checked 10 invalidInput zeroGlobals = some (some (display_result r)) :=
  ⟨invalidInput_insideArrays, by decide,
    no_input_validation invalidInput invalidInput_insideArrays zeroGlobals 10 (by decide)⟩

/-! ## Further instances on concrete automata -/

theorem sampleAutomaton_valid : ValidAutomaton sampleAutomaton := by
  refine ⟨by decide, by decide, ?_, ?_, ?_⟩
  · intro i h
    have hi : i = 2 := by
      by_contra hne
      exact h (by simp [sampleAutomaton, hne])
    subst hi
    decide
  · intro p a q h
    have hc : p = 1 ∧ a = 0 ∧ q = 2 := by
      by_contra hne
      exact h (by simp only [sampleAutomaton, if_neg hne])
    obtain ⟨rfl, rfl, rfl⟩ := hc
    decide
  · intro p q h
    have hc : p = 0 ∧ q = 1 := by
      by_contra hne
      exact h (by simp only [sampleAutomaton, if_neg hne])
    obtain ⟨rfl, rfl⟩ := hc
    decide

/-- Instance of the amended C13 on `sampleAutomaton`. -/
theorem no_out_of_bounds_access_witness :
    ValidAutomaton sampleAutomaton ∧ FitsTables sampleAutomaton ∧
    sampleAutomaton.num_states.toNat * sampleAutomaton.num_states.toNat < 10 ∧
    (∃ c, compute_epsilon_closure_checked 10 sampleAutomaton = some (some c) ∧
      compute_epsilon_closure 10 sampleAutomaton = some c) ∧
    eliminate_epsilon_transitions_checked sampleAutomaton =
      some (eliminate_epsilon_transitions sampleAutomaton) ∧
    update_final_states_checked sampleAutomaton = some (update_final_states sampleAutomaton) ∧
    (∃ r, convert_checked 10 sampleAutomaton = some (some r) ∧
      convert 10 sampleAutomaton = some r) :=
  ⟨sampleAutomaton_valid, by decide, by decide,
    no_out_of_bounds_access sampleAutomaton sampleAutomaton_valid (by decide) 10 (by decide)⟩

/-- Instance of the amended C14 on `scenarioTwo`. -/
theorem input_frame_witness :
    FitsTables scenarioTwo ∧
    scenarioTwo.num_states.toNat * scenarioTwo.num_states.toNat < 10 ∧
    (∃ c, compute_epsilon_closure_checked 10 scenarioTwo = some (some c) ∧
      c = { scenarioTwo with epsilon_closure := c.epsilon_closure }) ∧
    (∃ e, eliminate_epsilon_transitions_checked scenarioTwo = some e ∧
      e = { scenarioTwo with converted_transitions := e.converted_transitions }) ∧
    (∃ r, update_final_states_checked scenarioTwo = some r ∧
      r = { scenarioTwo with final_states := r.final_states } ∧
      ∀ i, scenarioTwo.final_states i ≠ 0 → r.final_states i ≠ 0) :=
  ⟨by decide, by decide, input_frame scenarioTwo (by decide) 10 (by decide)⟩

/-- Instance of C15 on `sampleAutomaton`. -/
theorem converted_keeps_shape_witness :
    FitsTables sampleAutomaton ∧
    sampleAutomaton.num_states.toNat * sampleAutomaton.num_states.toNat < 10 ∧
    ∃ r, convert_checked 10 sampleAutomaton = some (some r) ∧
      r.num_states = sampleAutomaton.num_states ∧
      r.num_symbols = sampleAutomaton.num_symbols ∧
      (∀ i, r.alphabet i = sampleAutomaton.alphabet i) ∧
      r.initial_state = sampleAutomaton.initial_state ∧
      (display_result r).start_state = sampleAutomaton.initial_state :=
  ⟨by decide, by decide, converted_keeps_shape sampleAutomaton (by decide) 10 (by decide)⟩

/-- Instance of C16 on the elimination run on `sampleWithClosure`, which prints the two
transitions `(0, a, 2)` and `(1, a, 2)`. -/
theorem display_order_witness :
    FitsTables (eliminate_epsilon_transitions sampleWithClosure) ∧
    (display_result (eliminate_epsilon_transitions sampleWithClosure)).transitions.map
        PrintedTransition.triple = [(0, 0, 2), (1, 0, 2)] ∧
    ((display_result (eliminate_epsilon_transitions sampleWithClosure)).transitions.map
        PrintedTransition.triple).Pairwise TripleLt ∧
    ((display_result (eliminate_epsilon_transitions sampleWithClosure)).transitions.map
        PrintedTransition.triple).Nodup :=
  ⟨by decide, by decide,
    (display_order (eliminate_epsilon_transitions sampleWithClosure) (by decide)).2.1,
    (display_order (eliminate_epsilon_transitions sampleWithClosure) (by decide)).2.2.1⟩

/-- Instance of C18 on `scenarioTwo`. -/
theorem closure_loop_terminates_witness :
    FitsTables scenarioTwo ∧
    (∀ fuel, scenarioTwo.num_states.toNat * scenarioTwo.num_states.toNat < fuel →
      ∃ r, compute_epsilon_closure fuel scenarioTwo = some r) :=
  ⟨by decide, (closure_loop_terminates scenarioTwo (by decide)).1⟩

/-- Instance of C19 on `sampleAutomaton`. -/
theorem original_transitions_kept_witness :
    FitsTables sampleAutomaton ∧
    sampleAutomaton.num_states.toNat * sampleAutomaton.num_states.toNat < 10 ∧
    ∃ c, compute_epsilon_closure 10 sampleAutomaton = some c ∧
      ∀ p a q, p < sampleAutomaton.num_states.toNat → a < sampleAutomaton.num_symbols.toNat →
        q < sampleAutomaton.num_states.toNat →
        sampleAutomaton.symbol_transitions p a q ≠ 0 →
        (eliminate_epsilon_transitions c).converted_transitions p a q ≠ 0 :=
  ⟨by decide, by decide, original_transitions_kept sampleAutomaton (by decide) 10 (by decide)⟩

/-- Instance of C20 on `cexAutomaton`. -/
theorem converted_saturated_witness :
    FitsTables cexAutomaton ∧ ClosureZeroed cexAutomaton ∧ ConvertedZeroed cexAutomaton ∧
    cexAutomaton.num_states.toNat * cexAutomaton.num_states.toNat < 10 ∧
    ∃ c, compute_epsilon_closure 10 cexAutomaton = some c ∧
      (∀ s t d a, s < cexAutomaton.num_states.toNat → t < cexAutomaton.num_states.toNat →
        d < cexAutomaton.num_states.toNat → a < cexAutomaton.num_symbols.toNat →
        c.epsilon_closure s t ≠ 0 →
        (eliminate_epsilon_transitions c).converted_transitions t a d ≠ 0 →
        (eliminate_epsilon_transitions c).converted_transitions s a d ≠ 0) ∧
      (∀ s d e a, s < cexAutomaton.num_states.toNat → d < cexAutomaton.num_states.toNat →
        e < cexAutomaton.num_states.toNat → a < cexAutomaton.num_symbols.toNat →
        (eliminate_epsilon_transitions c).converted_transitions s a d ≠ 0 →
        c.epsilon_closure d e ≠ 0 →
        (eliminate_epsilon_transitions c).converted_transitions s a e ≠ 0) :=
  ⟨by decide, fun _ _ _ _ => rfl, fun _ _ _ _ _ _ => rfl, by decide,
    converted_saturated cexAutomaton (by decide) (fun _ _ _ _ => rfl)
      (fun _ _ _ _ _ _ => rfl) 10 (by decide)⟩

end EpsilonNFA
